import Mathlib

/-!
Verification of `core/pruner.go` (chain-history pruner of turbo-geth).

This file gives a shallow embedding of the pruner's pure core:

* `calculateNumOfPrunedBlocks` — the sliding-window range calculator
  (uint64 arithmetic modelled as `Nat` with explicit wrap-around where the
  Go code could overflow);
* `NewBasicPruner` — the constructor's configuration validation;
* the `limitIterator` cursor (`GetNext`, `ResetLimit`, `HasMore`,
  `updateBucket`) and the `batchDelete` driver, modelled as a fuel-indexed
  state machine whose result is `none` when the fuel runs out (so a result
  that is `none` for *every* fuel is a proof of non-termination);
* the `Prune` bucket walks (the ascending scan with skip / collect /
  stop-early classification), with the database `Walk` modelled as an
  in-order traversal of a given entry list and the per-bucket decoder
  passed in as a function parameter (it is an external collaborator).

Byte strings are modelled as `List Nat`.
-/

abbrev Bytes : Type := List Nat

/-! ### uint64 arithmetic

Go `uint64` operations wrap modulo `2^64`.  Values are `Nat`s below `w64`;
subtraction and addition are written with the explicit wrap. -/

def w64 : Nat := 2 ^ 64

/-- Wrapping `uint64` subtraction: `a - b` in Go. -/
def sub64 (a b : Nat) : Nat := (a + w64 - b) % w64

/-- Wrapping `uint64` addition: `a + b` in Go. -/
def add64 (a b : Nat) : Nat := (a + b) % w64

/-! ### calculateNumOfPrunedBlocks

Direct translation of `calculateNumOfPrunedBlocks` from `core/pruner.go`.
The Go `switch` has two exhaustive cases (`diff >= blocksBatch`,
`diff < blocksBatch`) plus an unreachable `default`; it is rendered as an
if-then-else. -/

def calculateNumOfPrunedBlocks (currentBlock lastPrunedBlock blocksBeforePruning blocksBatch : Nat) :
    Nat × Nat × Bool :=
  if currentBlock ≤ lastPrunedBlock then
    (lastPrunedBlock, lastPrunedBlock, false)
  else
    let diff := sub64 currentBlock lastPrunedBlock
    if diff ≤ blocksBeforePruning then
      (lastPrunedBlock, lastPrunedBlock, false)
    else
      let diff2 := sub64 diff blocksBeforePruning
      if blocksBatch ≤ diff2 then
        (lastPrunedBlock, add64 lastPrunedBlock blocksBatch, true)
      else
        (lastPrunedBlock, add64 lastPrunedBlock diff2, true)

/-! ### NewBasicPruner

`CacheConfig.PruneTimeout` is a Go `time.Duration`, an `int64` count of
nanoseconds; it is modelled as `Int`.  The Go check
`config.PruneTimeout.Seconds() < 1` computes a `float64`; since
`Duration.Seconds` is monotone, maps `10^9 ns` exactly to `1.0`, and every
duration below `10^9 ns` to a double strictly below `1.0` (the gap to `1.0`
is at least `10^-9`, far above the rounding error near `1.0`), the float
comparison is exactly equivalent to the integer comparison
`PruneTimeout < 10^9 ns`, which is how it is embedded here. -/

structure CacheConfig where
  BlocksToPrune : Nat
  /-- Field `PruneTimeout` in nanoseconds (Go `time.Duration` = `int64`). -/
  PruneTimeoutNs : Int

/-- The fields of `BasicPruner` that the constructor initialises and that
the claims mention: the checkpoint, and the capacity of the buffered
`stop` channel created by `make(chan struct\x7b\x7d, 1)`. -/
structure BasicPruner where
  LastPrunedBlockNum : Nat
  stopCapacity : Nat

def NewBasicPruner (config : CacheConfig) : Except String BasicPruner :=
  if config.BlocksToPrune = 0 ∨ config.PruneTimeoutNs < 1000000000 then
    Except.error "incorrect config"
  else
    Except.ok { LastPrunedBlockNum := 0, stopCapacity := 1 }

/-! ### Buckets and key groups

The bucket name constants live in `dbutils` (not part of the supplied
sources); only their distinctness and non-emptiness matter to the pruner
code, so they are modelled as distinct placeholder literals. -/

def AccountsHistoryBucket : String := "hAT"
def StorageHistoryBucket : String := "hST"
def HashedStorageBucket : String := "hashed_storage"
def PlainAccountChangeSetBucket : String := "PLAIN-ACS"
def PlainStorageChangeSetBucket : String := "PLAIN-SCS"

abbrev Keys : Type := List Bytes

/-- Type `Batch` from `core/pruner.go`: a named key group. -/
structure GoBatch where
  bucket : String
  keys : Keys

structure keysToRemove where
  AccountHistoryKeys : Keys
  StorageHistoryKeys : Keys
  AccountChangeSet : Keys
  StorageChangeSet : Keys
  StorageKeys : Keys
  IntermediateTrieHashKeys : Keys

def newKeysToRemove : keysToRemove :=
  { AccountHistoryKeys := []
    StorageHistoryKeys := []
    AccountChangeSet := []
    StorageChangeSet := []
    StorageKeys := []
    IntermediateTrieHashKeys := [] }

/-! ### The limitIterator -/

structure limitIterator where
  k : keysToRemove
  counter : Nat
  currentBucket : String
  currentNum : Nat
  limit : Nat
  batches : List GoBatch

/-- The batch list built by `LimitIterator` (fixed traversal order). -/
def stdBatches (k : keysToRemove) : List GoBatch :=
  [ { bucket := AccountsHistoryBucket, keys := k.AccountHistoryKeys }
  , { bucket := StorageHistoryBucket, keys := k.StorageHistoryKeys }
  , { bucket := HashedStorageBucket, keys := k.StorageKeys }
  , { bucket := PlainAccountChangeSetBucket, keys := k.AccountChangeSet }
  , { bucket := PlainStorageChangeSetBucket, keys := k.StorageChangeSet } ]

def LimitIterator (k : keysToRemove) (limit : Nat) : limitIterator :=
  { k := k, counter := 0, currentBucket := "", currentNum := 0, limit := limit
    batches := stdBatches k }

/-- The `for batchIndex, batch := range i.batches` loop of `updateBucket`:
it stops at the last index (`break`), and on a match advances
`currentBucket` to the *next* batch's bucket and resets `currentNum`,
continuing the scan with the updated fields. -/
def ubLoop (cb : String) (cn : Nat) : List GoBatch → String × Nat
  | b1 :: b2 :: rest =>
    if cb = b1.bucket ∧ b1.keys.length = cn then ubLoop b2.bucket 0 (b2 :: rest)
    else ubLoop cb cn (b2 :: rest)
  | _ => (cb, cn)

def limitIterator.updateBucket (i : limitIterator) : limitIterator :=
  let cb0 := if i.currentBucket = "" then ((i.batches.headD ⟨"", []⟩).bucket) else i.currentBucket
  let p := ubLoop cb0 i.currentNum i.batches
  { i with currentBucket := p.1, currentNum := p.2 }

def limitIterator.HasMore (i : limitIterator) : Bool :=
  match i.batches.getLast? with
  | some lastBatch =>
    if i.currentBucket = lastBatch.bucket ∧ lastBatch.keys.length = i.currentNum then false
    else true
  | none => true

/-- The `for batchIndex, batch := range i.batches` loop of `GetNext`:
stops before the last index, returns the key at `currentNum` of the first
batch whose bucket matches. -/
def findLoop (cb : String) (cn : Nat) : List GoBatch → Option (Bytes × String)
  | b1 :: b2 :: rest =>
    if cb = b1.bucket then some (b1.keys.getD cn [], b1.bucket)
    else findLoop cb cn (b2 :: rest)
  | _ => none

/-- Method `GetNext` of the iterator.  Result `none` models `ok = false`.  The deferred
`currentNum++; counter++` runs on every path reached after the `HasMore`
check (both the yield and the fall-through `return nil, "", false`). -/
def limitIterator.GetNext (i : limitIterator) : Option (Bytes × String) × limitIterator :=
  if i.limit ≤ i.currentNum then (none, i)
  else
    let i1 := i.updateBucket
    if i1.HasMore then
      (findLoop i1.currentBucket i1.currentNum i1.batches,
       { i1 with currentNum := i1.currentNum + 1, counter := i1.counter + 1 })
    else (none, i1)

def limitIterator.ResetLimit (i : limitIterator) : limitIterator :=
  { i with counter := 0 }

/-! ### batchDelete

The inner round loop of `batchDelete` calls `GetNext` until `ok = false`,
issuing one `batch.Delete` per yielded key; a failing `Delete` is logged
and skipped (the key is simply not added to the write batch).  `delFail`
is the fault model of the store's per-key `Delete`.  The returned `Bool`
is `true` when the round genuinely ended with `ok = false` and `false`
when the fuel ran out first. -/

def innerRoundDel (delFail : String → Bytes → Bool) :
    Nat → limitIterator → List (Bytes × String) × limitIterator × Bool
  | 0, i => ([], i, false)
  | fuel + 1, i =>
    match i.GetNext with
    | (none, i') => ([], i', true)
    | (some kb, i') =>
      let r := innerRoundDel delFail fuel i'
      if delFail kb.2 kb.1 then (r.1, r.2.1, r.2.2)
      else (kb :: r.1, r.2.1, r.2.2)

/-- The fault-free round: every `batch.Delete` succeeds. -/
def innerRound : Nat → limitIterator → List (Bytes × String) × limitIterator × Bool :=
  innerRoundDel fun _ _ => false

/-- The outer `for iterator.HasMore()` loop of `batchDelete`.
`commitFail` is the fault model of `batch.Commit`, given the contents of
the write batch; a failing commit aborts with its error.  The result is
the per-round lists of committed deletes; `none` means the fuel ran out
(`fuelO` bounds outer rounds, `fuelI` bounds `GetNext` calls per round). -/
def bdLoop (delFail : String → Bytes → Bool)
    (commitFail : List (Bytes × String) → Option String) (fuelI : Nat) :
    Nat → limitIterator → Option (Except String (List (List (Bytes × String))))
  | 0, _ => none
  | fuelO + 1, i =>
    if i.HasMore then
      let i1 := i.ResetLimit
      let r := innerRoundDel delFail fuelI i1
      if r.2.2 then
        match commitFail r.1 with
        | some e => some (Except.error e)
        | none =>
          match bdLoop delFail commitFail fuelI fuelO r.2.1 with
          | none => none
          | some (Except.error e) => some (Except.error e)
          | some (Except.ok ls) => some (Except.ok (r.1 :: ls))
      else none
    else some (Except.ok [])

def DeleteLimit : Nat := 70000

/-- Function `batchDelete` itself: builds `LimitIterator(keys, DeleteLimit)` and
drains it. -/
def batchDelete (delFail : String → Bytes → Bool)
    (commitFail : List (Bytes × String) → Option String)
    (fuelI fuelO : Nat) (keys : keysToRemove) :
    Option (Except String (List (List (Bytes × String)))) :=
  bdLoop delFail commitFail fuelI fuelO (LimitIterator keys DeleteLimit)

/-! ### Prune

`db.Walk(bucket, [], 0, visit)` performs an in-order ascending scan of the
bucket, stopping early when `visit` returns `continue = false` and
propagating an error returned by `visit`.  The bucket contents are
modelled as the list of its `(key, value)` entries in ascending key
order.  `walkRun` additionally records the entries the callback was
invoked on (the *visited* trace), which the scan-termination claims talk
about. -/

def walkRun {σ : Type} (visit : σ → Bytes × Bytes → σ × Bool × Option String) :
    List (Bytes × Bytes) → σ → σ × Option String × List (Bytes × Bytes)
  | [], s => (s, none, [])
  | e :: rest, s =>
    let r := visit s e
    match r.2.2 with
    | some er => (r.1, some er, [e])
    | none =>
      if r.2.1 then
        let r' := walkRun visit rest r.1
        (r'.1, r'.2.1, e :: r'.2.2)
      else (r.1, none, [e])

/-- Modelled from the spec: `dbutils.CompositeKeySuffix` is not among the
supplied sources.  Per §4.3/§6 of the spec the history-index key is
composed from `(subjectKey, timestamp)`; the timestamp suffix is modelled
as a one-element encoding appended to the key.  Returns
`(composite, suffix)` like the Go function. -/
def CompositeKeySuffix (key : Bytes) (timestamp : Nat) : Bytes × Bytes :=
  (key ++ [timestamp], [timestamp])

/-- The walker `Prune` passes to `db.Walk` for the account change-set
bucket.  The decoder `dec` is the external per-bucket collaborator
`changeset.Mapper[bucket].Decode`, returning
`(timestamp, parsedKey, error)`; exactly as in the source, the error
component is discarded (`timestamp, parsedK, _ := dec(key, v)`).
`common.CopyBytes` is the identity under value semantics. -/
def accountVisit (dec : Bytes → Bytes → Nat × Bytes × Option String)
    (blockNumFrom blockNumTo : Nat) (acc : keysToRemove) (e : Bytes × Bytes) :
    keysToRemove × Bool × Option String :=
  let d := dec e.1 e.2
  if d.1 < blockNumFrom then (acc, true, none)
  else if blockNumTo < d.1 then (acc, false, none)
  else
    ({ acc with
        AccountChangeSet := acc.AccountChangeSet ++ [e.1]
        AccountHistoryKeys := acc.AccountHistoryKeys ++ [(CompositeKeySuffix d.2.1 d.1).1] },
     true, none)

/-- The walker for the storage change-set bucket: collects the raw key
only; the history-index derivation is left unimplemented
(`//todo implement pruning for thin history; _ = parsedK`). -/
def storageVisit (dec : Bytes → Bytes → Nat × Bytes × Option String)
    (blockNumFrom blockNumTo : Nat) (acc : keysToRemove) (e : Bytes × Bytes) :
    keysToRemove × Bool × Option String :=
  let d := dec e.1 e.2
  if d.1 < blockNumFrom then (acc, true, none)
  else if blockNumTo < d.1 then (acc, false, none)
  else
    ({ acc with StorageChangeSet := acc.StorageChangeSet ++ [e.1] }, true, none)

/-- The two bucket walks of `Prune`, producing `keysToRemove` (or the
first walk error).  `decA`/`decS` are the two bucket decoders,
`accEntries`/`storEntries` the in-order contents of the two change-set
buckets. -/
def pruneCollect (decA decS : Bytes → Bytes → Nat × Bytes × Option String)
    (accEntries storEntries : List (Bytes × Bytes)) (blockNumFrom blockNumTo : Nat) :
    Except String keysToRemove :=
  let r1 := walkRun (accountVisit decA blockNumFrom blockNumTo) accEntries newKeysToRemove
  match r1.2.1 with
  | some e => Except.error e
  | none =>
    let r2 := walkRun (storageVisit decS blockNumFrom blockNumTo) storEntries r1.1
    match r2.2.1 with
    | some e => Except.error e
    | none => Except.ok r2.1

/-- Function `Prune`: the two walks followed by `batchDelete`.  The result is
`some (ok ())` on success, `some (error e)` when a walk or a commit
fails, and `none` when `batchDelete`'s fuel runs out. -/
def Prune (decA decS : Bytes → Bytes → Nat × Bytes × Option String)
    (accEntries storEntries : List (Bytes × Bytes)) (blockNumFrom blockNumTo : Nat)
    (delFail : String → Bytes → Bool)
    (commitFail : List (Bytes × String) → Option String)
    (fuelI fuelO : Nat) : Option (Except String Unit) :=
  match pruneCollect decA decS accEntries storEntries blockNumFrom blockNumTo with
  | Except.error e => some (Except.error e)
  | Except.ok keys =>
    match batchDelete delFail commitFail fuelI fuelO keys with
    | none => none
    | some (Except.error e) => some (Except.error e)
    | some (Except.ok _) => some (Except.ok ())

/-! ### Specification shorthands for the scan claims

These are not translations of Go code; they are the specification-side
expressions that the scan theorems compare the walk against. -/

/-- The timestamp a decoder reports for an entry. -/
def decTs (dec : Bytes → Bytes → Nat × Bytes × Option String) (e : Bytes × Bytes) : Nat :=
  (dec e.1 e.2).1

/-- The parsed subject key a decoder reports for an entry. -/
def decKey (dec : Bytes → Bytes → Nat × Bytes × Option String) (e : Bytes × Bytes) : Bytes :=
  (dec e.1 e.2).2.1

/-- The walker's continue condition: it keeps scanning exactly on entries
with `timestamp < from` (skip) or `timestamp ≤ to` (skip or collect). -/
def scanCont (dec : Bytes → Bytes → Nat × Bytes × Option String) (f t : Nat)
    (e : Bytes × Bytes) : Bool :=
  decide (decTs dec e < f ∨ decTs dec e ≤ t)

/-- The collection window `from ≤ timestamp ≤ to`. -/
def scanWindow (dec : Bytes → Bytes → Nat × Bytes × Option String) (f t : Nat)
    (e : Bytes × Bytes) : Bool :=
  decide (f ≤ decTs dec e ∧ decTs dec e ≤ t)

/-- The entries the walk callback is expected to run on: the longest
prefix on which it keeps scanning, plus the single entry it stops at
(when one exists). -/
def expectedVisited (dec : Bytes → Bytes → Nat × Bytes × Option String) (f t : Nat)
    (entries : List (Bytes × Bytes)) : List (Bytes × Bytes) :=
  entries.takeWhile (scanCont dec f t) ++ (entries.dropWhile (scanCont dec f t)).take 1

/-- The entries the walk is expected to collect, in encounter order. -/
def expectedCollected (dec : Bytes → Bytes → Nat × Bytes × Option String) (f t : Nat)
    (entries : List (Bytes × Bytes)) : List (Bytes × Bytes) :=
  (entries.takeWhile (scanCont dec f t)).filter (scanWindow dec f t)

/-! ### Proof infrastructure for the limitIterator

`mkSt` is the general shape of every state reachable from
`LimitIterator k limit`: the batch list and the limit never change, only
`counter`, `currentBucket` and `currentNum` evolve. -/

def mkSt (k : keysToRemove) (L c : Nat) (cb : String) (n : Nat) : limitIterator :=
  { k := k, counter := c, currentBucket := cb, currentNum := n, limit := L
    batches := stdBatches k }

/-- Invariant for the non-termination proof: when some non-last group
holds at least `limit` keys, the cursor can never move past that group's
bucket — its bucket stays in a fixed set `allowed` of bucket names not
containing the last bucket (plus the initial empty string) and its offset
never exceeds the limit. -/
def stuckInv (k : keysToRemove) (L : Nat) (allowed : List String) (i : limitIterator) : Prop :=
  i.batches = stdBatches k ∧ i.limit = L ∧ i.currentNum ≤ L ∧ i.currentBucket ∈ allowed

/-! ## Helper lemmas: uint64 arithmetic under the guards -/

theorem sub64_eq {a b : Nat} (hba : b ≤ a) (ha : a < w64) : sub64 a b = a - b := by
  unfold sub64
  rw [show a + w64 - b = (a - b) + w64 by omega, Nat.add_mod_right,
    Nat.mod_eq_of_lt (by omega)]

theorem add64_eq {a b : Nat} (h : a + b < w64) : add64 a b = a + b := by
  unfold add64
  exact Nat.mod_eq_of_lt h


/-! ## Helper lemmas: the bucket walks -/

theorem accountVisit_skip {dec : Bytes → Bytes → Nat × Bytes × Option String} {f t : Nat}
    {acc : keysToRemove} {e : Bytes × Bytes} (h : decTs dec e < f) :
    accountVisit dec f t acc e = (acc, true, none) := by
  unfold decTs at h
  simp [accountVisit, h]

theorem accountVisit_stop {dec : Bytes → Bytes → Nat × Bytes × Option String} {f t : Nat}
    {acc : keysToRemove} {e : Bytes × Bytes} (h1 : ¬ decTs dec e < f) (h2 : t < decTs dec e) :
    accountVisit dec f t acc e = (acc, false, none) := by
  unfold decTs at h1 h2
  simp [accountVisit, h1, h2]

theorem accountVisit_collect {dec : Bytes → Bytes → Nat × Bytes × Option String} {f t : Nat}
    {acc : keysToRemove} {e : Bytes × Bytes} (h1 : ¬ decTs dec e < f) (h2 : ¬ t < decTs dec e) :
    accountVisit dec f t acc e =
      ({ acc with
          AccountChangeSet := acc.AccountChangeSet ++ [e.1]
          AccountHistoryKeys := acc.AccountHistoryKeys ++
            [(CompositeKeySuffix (decKey dec e) (decTs dec e)).1] },
       true, none) := by
  unfold decTs decKey at *
  simp [accountVisit, h1, h2]

theorem storageVisit_skip {dec : Bytes → Bytes → Nat × Bytes × Option String} {f t : Nat}
    {acc : keysToRemove} {e : Bytes × Bytes} (h : decTs dec e < f) :
    storageVisit dec f t acc e = (acc, true, none) := by
  unfold decTs at h
  simp [storageVisit, h]

theorem storageVisit_stop {dec : Bytes → Bytes → Nat × Bytes × Option String} {f t : Nat}
    {acc : keysToRemove} {e : Bytes × Bytes} (h1 : ¬ decTs dec e < f) (h2 : t < decTs dec e) :
    storageVisit dec f t acc e = (acc, false, none) := by
  unfold decTs at h1 h2
  simp [storageVisit, h1, h2]

theorem storageVisit_collect {dec : Bytes → Bytes → Nat × Bytes × Option String} {f t : Nat}
    {acc : keysToRemove} {e : Bytes × Bytes} (h1 : ¬ decTs dec e < f) (h2 : ¬ t < decTs dec e) :
    storageVisit dec f t acc e =
      ({ acc with StorageChangeSet := acc.StorageChangeSet ++ [e.1] }, true, none) := by
  unfold decTs at *
  simp [storageVisit, h1, h2]

theorem scanCont_true {dec : Bytes → Bytes → Nat × Bytes × Option String} (f t : Nat)
    {e : Bytes × Bytes} (h : decTs dec e < f ∨ decTs dec e ≤ t) :
    scanCont dec f t e = true := by
  simpa [scanCont] using h

theorem scanCont_false {dec : Bytes → Bytes → Nat × Bytes × Option String} {f t : Nat}
    {e : Bytes × Bytes} (h1 : ¬ decTs dec e < f) (h2 : t < decTs dec e) :
    scanCont dec f t e = false := by
  simp [scanCont]
  omega

/-- Full characterization of the account change-set walk: no error, the
visited trace is `expectedVisited`, the two account groups receive the
in-window keys (and their derived history keys) in encounter order, and
no other group is touched. -/
theorem accountWalk_run (dec : Bytes → Bytes → Nat × Bytes × Option String) (f t : Nat) :
    ∀ (entries : List (Bytes × Bytes)) (acc : keysToRemove),
    walkRun (accountVisit dec f t) entries acc =
      ({ acc with
          AccountChangeSet := acc.AccountChangeSet ++
            (expectedCollected dec f t entries).map Prod.fst
          AccountHistoryKeys := acc.AccountHistoryKeys ++
            (expectedCollected dec f t entries).map
              (fun e => (CompositeKeySuffix (decKey dec e) (decTs dec e)).1) },
       none, expectedVisited dec f t entries)
  | [], acc => by
    simp [walkRun, expectedCollected, expectedVisited]
  | e :: rest, acc => by
    by_cases h1 : decTs dec e < f
    · have hc := scanCont_true f t (Or.inl h1)
      have hw : scanWindow dec f t e = false := by
        simp [scanWindow]
        omega
      rw [walkRun]
      simp only [accountVisit_skip h1, accountWalk_run dec f t rest, expectedCollected,
        expectedVisited, List.takeWhile_cons, List.dropWhile_cons, hc, hw, List.filter_cons,
        if_true, Bool.false_eq_true, if_false, cond_false, cond_true]
      simp
    · by_cases h2 : t < decTs dec e
      · have hc := scanCont_false h1 h2
        rw [walkRun]
        simp only [accountVisit_stop h1 h2, expectedCollected, expectedVisited,
          List.takeWhile_cons, List.dropWhile_cons, hc, Bool.false_eq_true, if_false,
          cond_false, List.filter_nil, List.map_nil, List.append_nil, List.take_succ_cons,
          List.take_zero]
        simp
      · have hc := scanCont_true f t (Or.inr (show decTs dec e ≤ t by omega))
        have hw : scanWindow dec f t e = true := by
          simp [scanWindow]
          omega
        rw [walkRun]
        simp only [accountVisit_collect h1 h2, accountWalk_run dec f t rest,
          expectedCollected, expectedVisited, List.takeWhile_cons, List.dropWhile_cons, hc, hw,
          List.filter_cons, if_true, cond_true, List.map_cons]
        simp [List.append_assoc]

/-- Full characterization of the storage change-set walk. -/
theorem storageWalk_run (dec : Bytes → Bytes → Nat × Bytes × Option String) (f t : Nat) :
    ∀ (entries : List (Bytes × Bytes)) (acc : keysToRemove),
    walkRun (storageVisit dec f t) entries acc =
      ({ acc with
          StorageChangeSet := acc.StorageChangeSet ++
            (expectedCollected dec f t entries).map Prod.fst },
       none, expectedVisited dec f t entries)
  | [], acc => by
    simp [walkRun, expectedCollected, expectedVisited]
  | e :: rest, acc => by
    by_cases h1 : decTs dec e < f
    · have hc := scanCont_true f t (Or.inl h1)
      have hw : scanWindow dec f t e = false := by
        simp [scanWindow]
        omega
      rw [walkRun]
      simp only [storageVisit_skip h1, storageWalk_run dec f t rest, expectedCollected,
        expectedVisited, List.takeWhile_cons, List.dropWhile_cons, hc, hw, List.filter_cons,
        if_true, Bool.false_eq_true, if_false, cond_false, cond_true]
      simp
    · by_cases h2 : t < decTs dec e
      · have hc := scanCont_false h1 h2
        rw [walkRun]
        simp only [storageVisit_stop h1 h2, expectedCollected, expectedVisited,
          List.takeWhile_cons, List.dropWhile_cons, hc, Bool.false_eq_true, if_false,
          cond_false, List.filter_nil, List.map_nil, List.append_nil, List.take_succ_cons,
          List.take_zero]
        simp
      · have hc := scanCont_true f t (Or.inr (show decTs dec e ≤ t by omega))
        have hw : scanWindow dec f t e = true := by
          simp [scanWindow]
          omega
        rw [walkRun]
        simp only [storageVisit_collect h1 h2, storageWalk_run dec f t rest,
          expectedCollected, expectedVisited, List.takeWhile_cons, List.dropWhile_cons, hc, hw,
          List.filter_cons, if_true, cond_true, List.map_cons]
        simp [List.append_assoc]

/-! ## Claim C6: range safety of calculateNumOfPrunedBlocks -/

/-- Claim C6. For all `uint64` inputs with `currentBlock ≤ lastPruned`,
`calculateNumOfPrunedBlocks` returns not-eligible with
`from = to = lastPruned`; likewise when `currentBlock - lastPruned ≤
blocksBeforePruning`; and the two unsigned subtractions it executes equal
the exact (non-wrapping) differences, so no underflow or wrap occurs. -/
theorem calculateNumOfPrunedBlocks_range_safety
    (currentBlock lastPruned blocksBeforePruning blocksBatch : Nat)
    (hcb : currentBlock < w64) :
    (currentBlock ≤ lastPruned →
      calculateNumOfPrunedBlocks currentBlock lastPruned blocksBeforePruning blocksBatch =
        (lastPruned, lastPruned, false)) ∧
    (lastPruned < currentBlock →
      sub64 currentBlock lastPruned = currentBlock - lastPruned) ∧
    (lastPruned < currentBlock → currentBlock - lastPruned ≤ blocksBeforePruning →
      calculateNumOfPrunedBlocks currentBlock lastPruned blocksBeforePruning blocksBatch =
        (lastPruned, lastPruned, false)) ∧
    (lastPruned < currentBlock → blocksBeforePruning < currentBlock - lastPruned →
      sub64 (sub64 currentBlock lastPruned) blocksBeforePruning =
        currentBlock - lastPruned - blocksBeforePruning) := by
  refine ⟨fun h => ?_, fun h => ?_, fun h h2 => ?_, fun h h2 => ?_⟩
  · rw [calculateNumOfPrunedBlocks, if_pos h]
  · exact sub64_eq (by omega) hcb
  · rw [calculateNumOfPrunedBlocks, if_neg (by omega)]
    simp only [sub64_eq (by omega : lastPruned ≤ currentBlock) hcb, if_pos h2]
  · rw [sub64_eq (by omega : lastPruned ≤ currentBlock) hcb]
    exact sub64_eq (by omega) (by omega)

/-- Witness for C6 at a concrete input (`currentBlock = 5 ≤ lastPruned = 7`). -/
theorem calculateNumOfPrunedBlocks_range_safety_witness :
    5 < w64 ∧ (5 : Nat) ≤ 7 ∧
      calculateNumOfPrunedBlocks 5 7 0 1 = (7, 7, false) :=
  ⟨by norm_num [w64], by norm_num,
    (calculateNumOfPrunedBlocks_range_safety 5 7 0 1 (by norm_num [w64])).1 (by norm_num)⟩

/-! ## Claim C7: eligible-range formula and batch cap -/

/-- Claim C7. For every eligible input (`lastPruned < currentBlock` and
`currentBlock - lastPruned > blocksBeforePruning`),
`calculateNumOfPrunedBlocks` returns `from = lastPruned`,
`to = lastPruned + min (currentBlock - lastPruned - blocksBeforePruning)
blocksBatch` and eligible; hence `from ≤ to`, `to - from ≤ blocksBatch` and
`to ≥ lastPruned`; and concretely
`compute(100100, 0, 90000, 70000) = (0, 10100, eligible)`. -/
theorem calculateNumOfPrunedBlocks_eligible
    (currentBlock lastPruned blocksBeforePruning blocksBatch : Nat)
    (hcb : currentBlock < w64) (h1 : lastPruned < currentBlock)
    (h2 : blocksBeforePruning < currentBlock - lastPruned) :
    calculateNumOfPrunedBlocks currentBlock lastPruned blocksBeforePruning blocksBatch =
      (lastPruned,
       lastPruned + min (currentBlock - lastPruned - blocksBeforePruning) blocksBatch,
       true) ∧
    lastPruned ≤ lastPruned + min (currentBlock - lastPruned - blocksBeforePruning) blocksBatch ∧
    (lastPruned + min (currentBlock - lastPruned - blocksBeforePruning) blocksBatch) - lastPruned ≤
      blocksBatch ∧
    calculateNumOfPrunedBlocks 100100 0 90000 70000 = (0, 10100, true) := by
  have hd : sub64 currentBlock lastPruned = currentBlock - lastPruned :=
    sub64_eq (by omega) hcb
  have hd2 : sub64 (currentBlock - lastPruned) blocksBeforePruning =
      currentBlock - lastPruned - blocksBeforePruning :=
    sub64_eq (by omega) (by omega)
  refine ⟨?_, by omega, by omega, by decide⟩
  rw [calculateNumOfPrunedBlocks, if_neg (by omega)]
  simp only [hd, if_neg (by omega : ¬ currentBlock - lastPruned ≤ blocksBeforePruning), hd2]
  by_cases hbb : blocksBatch ≤ currentBlock - lastPruned - blocksBeforePruning
  · rw [if_pos hbb, add64_eq (by omega)]
    congr 2
    omega
  · rw [if_neg hbb, add64_eq (by omega)]
    congr 2
    omega

/-- Witness for C7 at the spec's end-to-end scenario. -/
theorem calculateNumOfPrunedBlocks_eligible_witness :
    100100 < w64 ∧ (0 : Nat) < 100100 ∧ (90000 : Nat) < 100100 - 0 ∧
      calculateNumOfPrunedBlocks 100100 0 90000 70000 = (0, 10100, true) :=
  ⟨by norm_num [w64], by norm_num, by norm_num,
    (calculateNumOfPrunedBlocks_eligible 100100 0 90000 70000 (by norm_num [w64])
      (by norm_num) (by norm_num)).2.2.2⟩

/-! ## Claim C10: constructor validation -/

/-- Claim C10. `NewBasicPruner` returns an error if and only if
`BlocksToPrune = 0` or `PruneTimeout` is shorter than one second
(`< 10^9 ns`); for every other configuration it returns, without error, a
pruner with `LastPrunedBlockNum = 0` and a stop channel of capacity 1. -/
theorem NewBasicPruner_validation (config : CacheConfig) :
    ((∃ e, NewBasicPruner config = Except.error e) ↔
      (config.BlocksToPrune = 0 ∨ config.PruneTimeoutNs < 1000000000)) ∧
    (¬ (config.BlocksToPrune = 0 ∨ config.PruneTimeoutNs < 1000000000) →
      NewBasicPruner config = Except.ok { LastPrunedBlockNum := 0, stopCapacity := 1 }) := by
  unfold NewBasicPruner
  by_cases h : config.BlocksToPrune = 0 ∨ config.PruneTimeoutNs < 1000000000
  · rw [if_pos h]
    exact ⟨⟨fun _ => h, fun _ => ⟨"incorrect config", rfl⟩⟩, fun hn => absurd h hn⟩
  · rw [if_neg h]
    refine ⟨⟨fun ⟨e, he⟩ => ?_, fun hc => absurd hc h⟩, fun _ => rfl⟩
    cases he

/-- Witness for C10 at a valid configuration (2-second timeout). -/
theorem NewBasicPruner_validation_witness :
    ¬ ((10 : Nat) = 0 ∨ (2000000000 : Int) < 1000000000) ∧
      NewBasicPruner { BlocksToPrune := 10, PruneTimeoutNs := 2000000000 } =
        Except.ok { LastPrunedBlockNum := 0, stopCapacity := 1 } :=
  ⟨by norm_num,
    (NewBasicPruner_validation { BlocksToPrune := 10, PruneTimeoutNs := 2000000000 }).2
      (by norm_num)⟩

/-! ## Helper lemmas: walk congruence and the full pruneCollect run -/

/-- The complete result of the two `Prune` walks: never an error, and the
four groups are exactly the collected change-set keys and the derived
account history keys (storage history stays empty). -/
theorem pruneCollect_run (decA decS : Bytes → Bytes → Nat × Bytes × Option String)
    (aE sE : List (Bytes × Bytes)) (f t : Nat) :
    pruneCollect decA decS aE sE f t = Except.ok
      { AccountHistoryKeys := (expectedCollected decA f t aE).map
          (fun e => (CompositeKeySuffix (decKey decA e) (decTs decA e)).1)
        StorageHistoryKeys := []
        AccountChangeSet := (expectedCollected decA f t aE).map Prod.fst
        StorageChangeSet := (expectedCollected decS f t sE).map Prod.fst
        StorageKeys := []
        IntermediateTrieHashKeys := [] } := by
  simp only [pruneCollect, accountWalk_run, storageWalk_run, newKeysToRemove]
  simp

theorem decTs_congr {decA decA' : Bytes → Bytes → Nat × Bytes × Option String}
    (h : ∀ k v, (decA k v).1 = (decA' k v).1) : decTs decA = decTs decA' :=
  funext fun e => h e.1 e.2

theorem decKey_congr {decA decA' : Bytes → Bytes → Nat × Bytes × Option String}
    (h : ∀ k v, (decA k v).2.1 = (decA' k v).2.1) : decKey decA = decKey decA' :=
  funext fun e => h e.1 e.2

theorem expectedCollected_congr {decA decA' : Bytes → Bytes → Nat × Bytes × Option String}
    (h : decTs decA = decTs decA') (f t : Nat) (entries : List (Bytes × Bytes)) :
    expectedCollected decA f t entries = expectedCollected decA' f t entries := by
  unfold expectedCollected scanCont scanWindow
  rw [h]

/-! ## Claim C4: decode errors and cycle abort -/

/-- Claim C4, amended. A decoder error is silently ignored by `Prune`:
the walk outcome depends only on the decoder's timestamp and parsed-key
components (not on its error component), and the collection phase always
succeeds — it never returns an error because a decoder did.  (Only a
storage-level walk error could abort; the walker functions themselves
never produce one.) -/
theorem Prune_decode_error_silently_ignored
    (decA decS decA' decS' : Bytes → Bytes → Nat × Bytes × Option String)
    (aE sE : List (Bytes × Bytes)) (f t : Nat)
    (hA : ∀ k v, (decA k v).1 = (decA' k v).1 ∧ (decA k v).2.1 = (decA' k v).2.1)
    (hS : ∀ k v, (decS k v).1 = (decS' k v).1 ∧ (decS k v).2.1 = (decS' k v).2.1) :
    pruneCollect decA decS aE sE f t = pruneCollect decA' decS' aE sE f t ∧
    ∃ K, pruneCollect decA decS aE sE f t = Except.ok K := by
  have htsA := decTs_congr (fun k v => (hA k v).1)
  have htsS := decTs_congr (fun k v => (hS k v).1)
  have hkA := decKey_congr (fun k v => (hA k v).2)
  refine ⟨?_, ⟨_, pruneCollect_run decA decS aE sE f t⟩⟩
  rw [pruneCollect_run, pruneCollect_run,
    expectedCollected_congr htsA f t aE, expectedCollected_congr htsS f t sE, htsA, hkA]

/-- Witness for C4 (amended): an always-erroring decoder still yields a
successful collection. -/
theorem Prune_decode_error_silently_ignored_witness :
    (∀ k v : Bytes,
      ((fun (_ _ : Bytes) => ((3 : Nat), ([] : Bytes), some "boom")) k v).1 =
        ((fun (_ _ : Bytes) => ((3 : Nat), ([] : Bytes), some "boom")) k v).1 ∧
      ((fun (_ _ : Bytes) => ((3 : Nat), ([] : Bytes), some "boom")) k v).2.1 =
        ((fun (_ _ : Bytes) => ((3 : Nat), ([] : Bytes), some "boom")) k v).2.1) ∧
    ∃ K, pruneCollect (fun _ _ => (3, [], some "boom")) (fun _ _ => (3, [], some "boom"))
        [([1], [2])] [] 0 10 = Except.ok K :=
  ⟨fun _ _ => ⟨rfl, rfl⟩,
    (Prune_decode_error_silently_ignored
      (fun _ _ => (3, [], some "boom")) (fun _ _ => (3, [], some "boom"))
      (fun _ _ => (3, [], some "boom")) (fun _ _ => (3, [], some "boom"))
      [([1], [2])] [] 0 10 (fun _ _ => ⟨rfl, rfl⟩) (fun _ _ => ⟨rfl, rfl⟩)).2⟩

/-- Claim C4 counterexample. The claim says a decoder error makes `Prune`
return an error.  Here the decoder errors on the (visited) single entry,
yet the whole of `Prune` — collection and deletion — returns success. -/
theorem Prune_decode_error_cex :
    Prune (fun _ _ => (5, [], some "decode failed")) (fun _ _ => (5, [], some "decode failed"))
      [([1], [2])] [] 0 10 (fun _ _ => false) (fun _ => none) 10 5 = some (Except.ok ()) ∧
    ((fun (_ _ : Bytes) => ((5 : Nat), ([] : Bytes), some "decode failed")) [1] [2]).2.2 =
      some "decode failed" :=
  ⟨rfl, rfl⟩

/-! ## Claim C5: scan classification and early termination -/

/-- On a bucket whose decoded timestamps are ascending, the collected
prefix equals the window filter over the whole bucket: stopping at the
first past-window entry loses nothing. -/
theorem expectedCollected_sorted (dec : Bytes → Bytes → Nat × Bytes × Option String)
    (f t : Nat) (hft : f ≤ t) :
    ∀ entries : List (Bytes × Bytes),
      entries.Pairwise (fun a b => decTs dec a ≤ decTs dec b) →
      expectedCollected dec f t entries = entries.filter (scanWindow dec f t) := by
  intro entries
  induction entries with
  | nil => intro _; rfl
  | cons e rest ih =>
    intro hp
    rw [List.pairwise_cons] at hp
    by_cases hc : decTs dec e ≤ t
    · have hcont : scanCont dec f t e = true := scanCont_true f t (Or.inr hc)
      simp only [expectedCollected] at ih ⊢
      rw [List.takeWhile_cons_of_pos hcont]
      simp only [List.filter_cons, ih hp.2]
    · have hcont : ¬ scanCont dec f t e = true := by
        rw [scanCont_false (by omega) (by omega)]
        simp
      have hw : scanWindow dec f t e = false := by
        simp [scanWindow]
        omega
      simp only [expectedCollected]
      rw [List.takeWhile_cons_of_neg hcont]
      simp only [List.filter_nil, List.filter_cons, hw, Bool.false_eq_true, if_false]
      rw [eq_comm, List.filter_eq_nil_iff]
      intro a ha
      have h1 := hp.1 a ha
      simp [scanWindow]
      omega

/-- Claim C5, amended. During `Prune`'s walk of a change-set bucket with
ascending decoded timestamps: every visited entry with `timestamp < from`
is skipped but the walk continues; every entry with `from ≤ timestamp ≤ to`
is collected (the collected keys are exactly the window filter of the whole
bucket, in encounter order); the callback returns `continue = false` at the
first entry with `timestamp > to`, so the visited trace is the
`timestamp ≤ to` prefix plus at most that single first past-window entry —
in particular at most **one** entry with `timestamp > to` is ever visited
(the claim's "visits no entry with `timestamp > to`" fails only for that
first entry, which must be decoded to notice the window has passed). -/
theorem Prune_scan_classification (dec : Bytes → Bytes → Nat × Bytes × Option String)
    (f t : Nat) (entries : List (Bytes × Bytes)) (hft : f ≤ t)
    (hsorted : entries.Pairwise (fun a b => decTs dec a ≤ decTs dec b)) :
    (walkRun (accountVisit dec f t) entries newKeysToRemove).2.2 =
      entries.takeWhile (fun e => decide (decTs dec e ≤ t)) ++
        (entries.dropWhile (fun e => decide (decTs dec e ≤ t))).take 1 ∧
    (walkRun (accountVisit dec f t) entries newKeysToRemove).1.AccountChangeSet =
      (entries.filter (scanWindow dec f t)).map Prod.fst ∧
    (walkRun (accountVisit dec f t) entries newKeysToRemove).2.2.countP
        (fun e => decide (t < decTs dec e)) ≤ 1 := by
  have hfun : scanCont dec f t = fun e => decide (decTs dec e ≤ t) := by
    funext e
    simp [scanCont]
    omega
  rw [accountWalk_run]
  refine ⟨?_, ?_, ?_⟩
  · simp only [expectedVisited, hfun]
  · rw [expectedCollected_sorted dec f t hft entries hsorted]
    simp [newKeysToRemove]
  · simp only [expectedVisited, List.countP_append]
    have h1 : (entries.takeWhile (scanCont dec f t)).countP
        (fun e => decide (t < decTs dec e)) = 0 := by
      rw [List.countP_eq_zero]
      intro a ha
      have := List.mem_takeWhile_imp ha
      rw [hfun] at this
      simp at this ⊢
      omega
    have h2 : ((entries.dropWhile (scanCont dec f t)).take 1).countP
        (fun e => decide (t < decTs dec e)) ≤ 1 := by
      have ha : ((entries.dropWhile (scanCont dec f t)).take 1).countP
          (fun e => decide (t < decTs dec e)) ≤
            ((entries.dropWhile (scanCont dec f t)).take 1).length :=
        List.countP_le_length _
      have hb : ((entries.dropWhile (scanCont dec f t)).take 1).length ≤ 1 := by
        rw [List.length_take]
        omega
      omega
    omega

/-- Witness for C5 (amended) on the spec's synthetic bucket
(timestamps 1, 5, 11, 50 against the window [3, 10]). -/
theorem Prune_scan_classification_witness :
    (3 : Nat) ≤ 10 ∧
    ([([1], []), ([5], []), ([11], []), ([50], [])] :
        List (Bytes × Bytes)).Pairwise
      (fun a b => decTs (fun k _ => (k.headD 0, [], none)) a ≤
        decTs (fun k _ => (k.headD 0, [], none)) b) ∧
    ((walkRun (accountVisit (fun k _ => (k.headD 0, [], none)) 3 10)
          [([1], []), ([5], []), ([11], []), ([50], [])] newKeysToRemove).2.2 =
        ([([1], []), ([5], []), ([11], []), ([50], [])] :
            List (Bytes × Bytes)).takeWhile
            (fun e => decide (decTs (fun k _ => (k.headD 0, [], none)) e ≤ 10)) ++
          (([([1], []), ([5], []), ([11], []), ([50], [])] :
              List (Bytes × Bytes)).dropWhile
              (fun e => decide (decTs (fun k _ => (k.headD 0, [], none)) e ≤ 10))).take 1 ∧
      (walkRun (accountVisit (fun k _ => (k.headD 0, [], none)) 3 10)
          [([1], []), ([5], []), ([11], []), ([50], [])] newKeysToRemove).1.AccountChangeSet =
        (([([1], []), ([5], []), ([11], []), ([50], [])] :
            List (Bytes × Bytes)).filter
            (scanWindow (fun k _ => (k.headD 0, [], none)) 3 10)).map Prod.fst ∧
      (walkRun (accountVisit (fun k _ => (k.headD 0, [], none)) 3 10)
          [([1], []), ([5], []), ([11], []), ([50], [])] newKeysToRemove).2.2.countP
          (fun e => decide (10 < decTs (fun k _ => (k.headD 0, [], none)) e)) ≤ 1) :=
  ⟨by norm_num, by decide,
    Prune_scan_classification (fun k _ => (k.headD 0, [], none)) 3 10
      [([1], []), ([5], []), ([11], []), ([50], [])] (by norm_num) (by decide)⟩

/-- Claim C5 counterexample. The claim's "the scan visits no entry with
`timestamp > to`" is false: the first past-window entry is visited (and
decoded) — the callback runs on it and only then stops the walk. -/
theorem Prune_scan_visits_first_past_entry :
    (walkRun (accountVisit (fun k _ => (k.headD 0, [], none)) 0 4)
        [([9], [])] newKeysToRemove).2.2 = [([9], [])] ∧
    4 < decTs (fun k _ => (k.headD 0, [], none)) ([9], []) :=
  ⟨rfl, by decide⟩

/-! ## Claim C9: history-index key derivation -/

/-- Claim C9. Every collected account change-set entry also contributes a
derived history-index key composed from `(subjectKey, timestamp)` via
`CompositeKeySuffix`, appended in encounter order to the
`AccountHistoryKeys` group; storage entries contribute no history-index
key and raise no error — `StorageHistoryKeys` stays empty while the raw
`StorageChangeSet` keys are still collected. -/
theorem Prune_history_index_derivation
    (decA decS : Bytes → Bytes → Nat × Bytes × Option String)
    (aE sE : List (Bytes × Bytes)) (f t : Nat) :
    pruneCollect decA decS aE sE f t = Except.ok
      { AccountHistoryKeys := (expectedCollected decA f t aE).map
          (fun e => (CompositeKeySuffix (decKey decA e) (decTs decA e)).1)
        StorageHistoryKeys := []
        AccountChangeSet := (expectedCollected decA f t aE).map Prod.fst
        StorageChangeSet := (expectedCollected decS f t sE).map Prod.fst
        StorageKeys := []
        IntermediateTrieHashKeys := [] } :=
  pruneCollect_run decA decS aE sE f t

/-! ## Claim C8: per-key delete errors vs commit errors -/

/-- Claim C8. Within one `batchDelete` round: a failing per-key
`batch.Delete` is skipped without disturbing the iteration — the round's
recorded deletes are exactly the fault-free round's yields minus the
failing keys, with identical final cursor state and completion — and the
round still reaches `batch.Commit` (a successful commit appends the round
and continues; a failing commit makes `batchDelete` return that error
immediately). -/
theorem batchDelete_delete_vs_commit_error (delFail : String → Bytes → Bool)
    (commitFail : List (Bytes × String) → Option String) (fuelI : Nat) (st : limitIterator) :
    (∀ (f : Nat) (i : limitIterator),
      innerRoundDel delFail f i =
        ((innerRound f i).1.filter (fun kb => ! delFail kb.2 kb.1),
         (innerRound f i).2.1, (innerRound f i).2.2)) ∧
    (∀ (fuelO : Nat) (e : String), st.HasMore = true →
      (innerRoundDel delFail fuelI st.ResetLimit).2.2 = true →
      commitFail (innerRoundDel delFail fuelI st.ResetLimit).1 = some e →
      bdLoop delFail commitFail fuelI (fuelO + 1) st = some (Except.error e)) ∧
    (∀ (fuelO : Nat), st.HasMore = true →
      (innerRoundDel delFail fuelI st.ResetLimit).2.2 = true →
      commitFail (innerRoundDel delFail fuelI st.ResetLimit).1 = none →
      bdLoop delFail commitFail fuelI (fuelO + 1) st =
        match bdLoop delFail commitFail fuelI fuelO (innerRoundDel delFail fuelI st.ResetLimit).2.1 with
        | none => none
        | some (Except.error e) => some (Except.error e)
        | some (Except.ok ls) =>
            some (Except.ok ((innerRoundDel delFail fuelI st.ResetLimit).1 :: ls))) := by
  refine ⟨?_, ?_, ?_⟩
  · intro f
    induction f with
    | zero => intro i; rfl
    | succ f ih =>
      intro i
      rw [innerRound] at *
      rw [innerRoundDel, innerRoundDel]
      match hg : i.GetNext with
      | (none, i') => simp
      | (some kb, i') =>
        simp only [ih i']
        by_cases hd : delFail kb.2 kb.1 <;> simp [hd]
  · intro fuelO e hm hc he
    rw [bdLoop, if_pos hm]
    simp only [hc, if_true, he]
  · intro fuelO hm hc he
    rw [bdLoop, if_pos hm]
    simp only [hc, if_true, he]

/-- Witness for C8: the spec's 5-key group whose 3rd key fails to delete;
the other four deletes still happen; the commit is still consulted, and a
failing commit aborts with its error. -/
theorem batchDelete_delete_vs_commit_error_witness :
    innerRoundDel (fun _ k => decide (k = [3])) 7
        (LimitIterator { newKeysToRemove with
          AccountHistoryKeys := [[1], [2], [3], [4], [5]] } 70000) =
      ((innerRound 7 (LimitIterator { newKeysToRemove with
          AccountHistoryKeys := [[1], [2], [3], [4], [5]] } 70000)).1.filter
          (fun kb => ! decide (kb.1 = [3])),
       (innerRound 7 (LimitIterator { newKeysToRemove with
          AccountHistoryKeys := [[1], [2], [3], [4], [5]] } 70000)).2.1,
       (innerRound 7 (LimitIterator { newKeysToRemove with
          AccountHistoryKeys := [[1], [2], [3], [4], [5]] } 70000)).2.2) ∧
    innerRoundDel (fun _ k => decide (k = [3])) 7
        (LimitIterator { newKeysToRemove with
          AccountHistoryKeys := [[1], [2], [3], [4], [5]] } 70000) =
      ([([1], AccountsHistoryBucket), ([2], AccountsHistoryBucket),
        ([4], AccountsHistoryBucket), ([5], AccountsHistoryBucket)],
       (innerRound 7 (LimitIterator { newKeysToRemove with
          AccountHistoryKeys := [[1], [2], [3], [4], [5]] } 70000)).2.1, true) ∧
    bdLoop (fun _ k => decide (k = [3])) (fun _ => some "commit boom") 7 1
        (LimitIterator { newKeysToRemove with
          AccountHistoryKeys := [[1], [2], [3], [4], [5]] } 70000) =
      some (Except.error "commit boom") := by
  refine ⟨(batchDelete_delete_vs_commit_error (fun _ k => decide (k = [3]))
      (fun _ => some "commit boom") 7
      (LimitIterator { newKeysToRemove with
        AccountHistoryKeys := [[1], [2], [3], [4], [5]] } 70000)).1 7 _, by rfl, ?_⟩
  exact (batchDelete_delete_vs_commit_error (fun _ k => decide (k = [3]))
      (fun _ => some "commit boom") 7
      (LimitIterator { newKeysToRemove with
        AccountHistoryKeys := [[1], [2], [3], [4], [5]] } 70000)).2.1 0 "commit boom"
      (by rfl) (by rfl) (by rfl)

/-! ## Helper lemmas: single GetNext steps of the limitIterator -/

theorem LimitIterator_eq_mkSt (k : keysToRemove) (L : Nat) :
    LimitIterator k L = mkSt k L 0 "" 0 := rfl

theorem innerRoundDel_false (f : Nat) (i : limitIterator) :
    innerRoundDel (fun _ _ => false) f i = innerRound f i := rfl

/-- Observation: `GetNext` only looks at the state after `updateBucket` once the limit
check has passed, so two states with equal `updateBucket` results and
passing limit checks step identically. -/
theorem getNext_eq_of_upd {i j : limitIterator} (hupd : i.updateBucket = j.updateBucket)
    (hi : ¬ i.limit ≤ i.currentNum) (hj : ¬ j.limit ≤ j.currentNum) :
    i.GetNext = j.GetNext := by
  rw [limitIterator.GetNext, limitIterator.GetNext, if_neg hi, if_neg hj, hupd]

theorem innerRound_eq_of_getNext {i j : limitIterator} (h : i.GetNext = j.GetNext) (f : Nat) :
    innerRound (f + 1) i = innerRound (f + 1) j := by
  show innerRoundDel _ _ _ = innerRoundDel _ _ _
  rw [innerRoundDel, innerRoundDel, h]

theorem getNext_b1 (k : keysToRemove) (L c n : Nat) (hn : n < k.AccountHistoryKeys.length)
    (hL : n < L) :
    (mkSt k L c AccountsHistoryBucket n).GetNext =
      (some (k.AccountHistoryKeys.getD n [], AccountsHistoryBucket),
       mkSt k L (c + 1) AccountsHistoryBucket (n + 1)) := by
  have hne : k.AccountHistoryKeys.length ≠ n := by omega
  have hnL : ¬ L ≤ n := by omega
  simp +decide [limitIterator.GetNext, limitIterator.updateBucket, limitIterator.HasMore,
    ubLoop, findLoop, stdBatches, mkSt, AccountsHistoryBucket, StorageHistoryBucket,
    HashedStorageBucket, PlainAccountChangeSetBucket, PlainStorageChangeSetBucket, hne, hnL]

theorem getNext_b2 (k : keysToRemove) (L c n : Nat) (hn : n < k.StorageHistoryKeys.length)
    (hL : n < L) :
    (mkSt k L c StorageHistoryBucket n).GetNext =
      (some (k.StorageHistoryKeys.getD n [], StorageHistoryBucket),
       mkSt k L (c + 1) StorageHistoryBucket (n + 1)) := by
  have hne : k.StorageHistoryKeys.length ≠ n := by omega
  have hnL : ¬ L ≤ n := by omega
  simp +decide [limitIterator.GetNext, limitIterator.updateBucket, limitIterator.HasMore,
    ubLoop, findLoop, stdBatches, mkSt, AccountsHistoryBucket, StorageHistoryBucket,
    HashedStorageBucket, PlainAccountChangeSetBucket, PlainStorageChangeSetBucket, hne, hnL]

theorem getNext_b3 (k : keysToRemove) (L c n : Nat) (hn : n < k.StorageKeys.length)
    (hL : n < L) :
    (mkSt k L c HashedStorageBucket n).GetNext =
      (some (k.StorageKeys.getD n [], HashedStorageBucket),
       mkSt k L (c + 1) HashedStorageBucket (n + 1)) := by
  have hne : k.StorageKeys.length ≠ n := by omega
  have hnL : ¬ L ≤ n := by omega
  simp +decide [limitIterator.GetNext, limitIterator.updateBucket, limitIterator.HasMore,
    ubLoop, findLoop, stdBatches, mkSt, AccountsHistoryBucket, StorageHistoryBucket,
    HashedStorageBucket, PlainAccountChangeSetBucket, PlainStorageChangeSetBucket, hne, hnL]

theorem getNext_b4 (k : keysToRemove) (L c n : Nat) (hn : n < k.AccountChangeSet.length)
    (hL : n < L) :
    (mkSt k L c PlainAccountChangeSetBucket n).GetNext =
      (some (k.AccountChangeSet.getD n [], PlainAccountChangeSetBucket),
       mkSt k L (c + 1) PlainAccountChangeSetBucket (n + 1)) := by
  have hne : k.AccountChangeSet.length ≠ n := by omega
  have hnL : ¬ L ≤ n := by omega
  simp +decide [limitIterator.GetNext, limitIterator.updateBucket, limitIterator.HasMore,
    ubLoop, findLoop, stdBatches, mkSt, AccountsHistoryBucket, StorageHistoryBucket,
    HashedStorageBucket, PlainAccountChangeSetBucket, PlainStorageChangeSetBucket, hne, hnL]

theorem upd_trans0 (k : keysToRemove) (L c n : Nat) :
    (mkSt k L c "" n).updateBucket = (mkSt k L c AccountsHistoryBucket n).updateBucket := by
  simp +decide [limitIterator.updateBucket, mkSt, stdBatches, AccountsHistoryBucket]

theorem upd_trans1 (k : keysToRemove) (L c : Nat) :
    (mkSt k L c AccountsHistoryBucket k.AccountHistoryKeys.length).updateBucket =
      (mkSt k L c StorageHistoryBucket 0).updateBucket := by
  simp +decide [limitIterator.updateBucket, mkSt, stdBatches, ubLoop, AccountsHistoryBucket,
    StorageHistoryBucket, HashedStorageBucket, PlainAccountChangeSetBucket,
    PlainStorageChangeSetBucket]

theorem upd_trans2 (k : keysToRemove) (L c : Nat) :
    (mkSt k L c StorageHistoryBucket k.StorageHistoryKeys.length).updateBucket =
      (mkSt k L c HashedStorageBucket 0).updateBucket := by
  simp +decide [limitIterator.updateBucket, mkSt, stdBatches, ubLoop, AccountsHistoryBucket,
    StorageHistoryBucket, HashedStorageBucket, PlainAccountChangeSetBucket,
    PlainStorageChangeSetBucket]

theorem upd_trans3 (k : keysToRemove) (L c : Nat) :
    (mkSt k L c HashedStorageBucket k.StorageKeys.length).updateBucket =
      (mkSt k L c PlainAccountChangeSetBucket 0).updateBucket := by
  simp +decide [limitIterator.updateBucket, mkSt, stdBatches, ubLoop, AccountsHistoryBucket,
    StorageHistoryBucket, HashedStorageBucket, PlainAccountChangeSetBucket,
    PlainStorageChangeSetBucket]

theorem upd_trans4 (k : keysToRemove) (L c : Nat) :
    (mkSt k L c PlainAccountChangeSetBucket k.AccountChangeSet.length).updateBucket =
      (mkSt k L c PlainStorageChangeSetBucket 0).updateBucket := by
  simp +decide [limitIterator.updateBucket, mkSt, stdBatches, ubLoop, AccountsHistoryBucket,
    StorageHistoryBucket, HashedStorageBucket, PlainAccountChangeSetBucket,
    PlainStorageChangeSetBucket]

/-! ## Helper lemmas: the inner round, group by group -/

theorem inner5_lt (k : keysToRemove) (L c n : Nat) (hn : n < k.StorageChangeSet.length)
    (h5 : k.StorageChangeSet.length ≤ L) (f : Nat) :
    innerRound (f + 1) (mkSt k L c PlainStorageChangeSetBucket n) =
      ([], mkSt k L (c + 1) PlainStorageChangeSetBucket (n + 1), true) := by
  have hne : k.StorageChangeSet.length ≠ n := by omega
  have hnL : ¬ L ≤ n := by omega
  have hg : (mkSt k L c PlainStorageChangeSetBucket n).GetNext =
      (none, mkSt k L (c + 1) PlainStorageChangeSetBucket (n + 1)) := by
    simp +decide [limitIterator.GetNext, limitIterator.updateBucket, limitIterator.HasMore,
      ubLoop, findLoop, stdBatches, mkSt, AccountsHistoryBucket, StorageHistoryBucket,
      HashedStorageBucket, PlainAccountChangeSetBucket, PlainStorageChangeSetBucket, hne, hnL]
  show innerRoundDel _ _ _ = _
  rw [innerRoundDel, hg]

theorem inner5_eq (k : keysToRemove) (L c : Nat) (h5 : k.StorageChangeSet.length ≤ L) (f : Nat) :
    innerRound (f + 1) (mkSt k L c PlainStorageChangeSetBucket k.StorageChangeSet.length) =
      ([], mkSt k L c PlainStorageChangeSetBucket k.StorageChangeSet.length, true) := by
  have hg : (mkSt k L c PlainStorageChangeSetBucket k.StorageChangeSet.length).GetNext =
      (none, mkSt k L c PlainStorageChangeSetBucket k.StorageChangeSet.length) := by
    by_cases hL : L ≤ k.StorageChangeSet.length
    · rw [limitIterator.GetNext]
      simp only [mkSt]
      rw [if_pos hL]
    · simp +decide [limitIterator.GetNext, limitIterator.updateBucket, limitIterator.HasMore,
        ubLoop, findLoop, stdBatches, mkSt, AccountsHistoryBucket, StorageHistoryBucket,
        HashedStorageBucket, PlainAccountChangeSetBucket, PlainStorageChangeSetBucket, hL]
  show innerRoundDel _ _ _ = _
  rw [innerRoundDel, hg]

theorem inner_enter5 (k : keysToRemove) (L c : Nat) (h5 : k.StorageChangeSet.length ≤ L)
    (f : Nat) :
    innerRound (f + 1) (mkSt k L c PlainStorageChangeSetBucket 0) =
      ([], mkSt k L (c + min 1 k.StorageChangeSet.length) PlainStorageChangeSetBucket
        (min 1 k.StorageChangeSet.length), true) := by
  by_cases h0 : k.StorageChangeSet.length = 0
  · have h := inner5_eq k L c h5 f
    rw [h0] at h
    simpa [h0] using h
  · have h1 : 0 < k.StorageChangeSet.length := by omega
    have h := inner5_lt k L c 0 h1 h5 f
    have hm : min 1 k.StorageChangeSet.length = 1 := by omega
    simpa [hm] using h

theorem inner4 (k : keysToRemove) (L : Nat) (h4 : k.AccountChangeSet.length < L)
    (h5 : k.StorageChangeSet.length ≤ L) :
    ∀ (f c n : Nat), n ≤ k.AccountChangeSet.length → k.AccountChangeSet.length - n < f →
    innerRound f (mkSt k L c PlainAccountChangeSetBucket n) =
      ((k.AccountChangeSet.drop n).map (fun b => (b, PlainAccountChangeSetBucket)),
       mkSt k L (c + (k.AccountChangeSet.length - n) + min 1 k.StorageChangeSet.length)
         PlainStorageChangeSetBucket (min 1 k.StorageChangeSet.length), true)
  | 0, c, n, hn, hf => by omega
  | f + 1, c, n, hn, hf => by
    by_cases he : n = k.AccountChangeSet.length
    · subst he
      rw [innerRound_eq_of_getNext
        (getNext_eq_of_upd (upd_trans4 k L c) (by simp [mkSt]; omega) (by simp [mkSt]; omega)) f]
      rw [inner_enter5 k L c h5 f]
      simp [List.drop_length, Nat.sub_self]
    · have hlt : n < k.AccountChangeSet.length := by omega
      show innerRoundDel _ _ _ = _
      rw [innerRoundDel, getNext_b4 k L c n hlt (by omega)]
      simp only [innerRoundDel_false,
        inner4 k L h4 h5 f (c + 1) (n + 1) (by omega) (by omega), Bool.false_eq_true,
        if_false]
      have hdrop : k.AccountChangeSet.drop n =
          k.AccountChangeSet[n] :: k.AccountChangeSet.drop (n + 1) :=
        List.drop_eq_getElem_cons hlt
      have hc : c + 1 + (k.AccountChangeSet.length - (n + 1)) =
          c + (k.AccountChangeSet.length - n) := by omega
      rw [hdrop, hc]
      simp [List.getD_eq_getElem?_getD, List.getElem?_eq_getElem hlt]
      rw [eq_comm, List.drop_eq_getElem_cons (by simpa using hlt)]
      simp

theorem inner3 (k : keysToRemove) (L : Nat) (h3 : k.StorageKeys.length < L)
    (h4 : k.AccountChangeSet.length < L) (h5 : k.StorageChangeSet.length ≤ L) :
    ∀ (f c n : Nat), n ≤ k.StorageKeys.length →
    (k.StorageKeys.length - n) + k.AccountChangeSet.length < f →
    innerRound f (mkSt k L c HashedStorageBucket n) =
      ((k.StorageKeys.drop n).map (fun b => (b, HashedStorageBucket)) ++
        k.AccountChangeSet.map (fun b => (b, PlainAccountChangeSetBucket)),
       mkSt k L (c + (k.StorageKeys.length - n) + k.AccountChangeSet.length +
         min 1 k.StorageChangeSet.length)
         PlainStorageChangeSetBucket (min 1 k.StorageChangeSet.length), true)
  | 0, c, n, hn, hf => by omega
  | f + 1, c, n, hn, hf => by
    by_cases he : n = k.StorageKeys.length
    · subst he
      rw [innerRound_eq_of_getNext
        (getNext_eq_of_upd (upd_trans3 k L c) (by simp [mkSt]; omega) (by simp [mkSt]; omega)) f]
      rw [inner4 k L h4 h5 (f + 1) c 0 (by omega) (by omega)]
      have hc : c + (k.AccountChangeSet.length - 0) =
          c + (k.StorageKeys.length - k.StorageKeys.length) + k.AccountChangeSet.length := by
        omega
      rw [hc]
      simp [List.drop_length]
    · have hlt : n < k.StorageKeys.length := by omega
      show innerRoundDel _ _ _ = _
      rw [innerRoundDel, getNext_b3 k L c n hlt (by omega)]
      simp only [innerRoundDel_false,
        inner3 k L h3 h4 h5 f (c + 1) (n + 1) (by omega) (by omega), Bool.false_eq_true,
        if_false]
      have hc : c + 1 + (k.StorageKeys.length - (n + 1)) =
          c + (k.StorageKeys.length - n) := by omega
      rw [hc]
      simp [List.getD_eq_getElem?_getD, List.getElem?_eq_getElem hlt]
      rw [eq_comm, List.drop_eq_getElem_cons (by simpa using hlt)]
      simp

theorem inner2 (k : keysToRemove) (L : Nat) (h2 : k.StorageHistoryKeys.length < L)
    (h3 : k.StorageKeys.length < L)
    (h4 : k.AccountChangeSet.length < L) (h5 : k.StorageChangeSet.length ≤ L) :
    ∀ (f c n : Nat), n ≤ k.StorageHistoryKeys.length →
    (k.StorageHistoryKeys.length - n) + k.StorageKeys.length + k.AccountChangeSet.length < f →
    innerRound f (mkSt k L c StorageHistoryBucket n) =
      ((k.StorageHistoryKeys.drop n).map (fun b => (b, StorageHistoryBucket)) ++
        k.StorageKeys.map (fun b => (b, HashedStorageBucket)) ++
        k.AccountChangeSet.map (fun b => (b, PlainAccountChangeSetBucket)),
       mkSt k L (c + (k.StorageHistoryKeys.length - n) + k.StorageKeys.length +
         k.AccountChangeSet.length + min 1 k.StorageChangeSet.length)
         PlainStorageChangeSetBucket (min 1 k.StorageChangeSet.length), true)
  | 0, c, n, hn, hf => by omega
  | f + 1, c, n, hn, hf => by
    by_cases he : n = k.StorageHistoryKeys.length
    · subst he
      rw [innerRound_eq_of_getNext
        (getNext_eq_of_upd (upd_trans2 k L c) (by simp [mkSt]; omega) (by simp [mkSt]; omega)) f]
      rw [inner3 k L h3 h4 h5 (f + 1) c 0 (by omega) (by omega)]
      have hc : c + (k.StorageKeys.length - 0) + k.AccountChangeSet.length =
          c + (k.StorageHistoryKeys.length - k.StorageHistoryKeys.length) +
            k.StorageKeys.length + k.AccountChangeSet.length := by
        omega
      rw [hc]
      simp [List.drop_length, List.append_assoc]
    · have hlt : n < k.StorageHistoryKeys.length := by omega
      show innerRoundDel _ _ _ = _
      rw [innerRoundDel, getNext_b2 k L c n hlt (by omega)]
      simp only [innerRoundDel_false,
        inner2 k L h2 h3 h4 h5 f (c + 1) (n + 1) (by omega) (by omega), Bool.false_eq_true,
        if_false]
      have hc : c + 1 + (k.StorageHistoryKeys.length - (n + 1)) =
          c + (k.StorageHistoryKeys.length - n) := by omega
      rw [hc]
      simp [List.getD_eq_getElem?_getD, List.getElem?_eq_getElem hlt]
      rw [eq_comm, List.drop_eq_getElem_cons (by simpa using hlt)]
      simp

theorem inner1 (k : keysToRemove) (L : Nat) (h1 : k.AccountHistoryKeys.length < L)
    (h2 : k.StorageHistoryKeys.length < L) (h3 : k.StorageKeys.length < L)
    (h4 : k.AccountChangeSet.length < L) (h5 : k.StorageChangeSet.length ≤ L) :
    ∀ (f c n : Nat), n ≤ k.AccountHistoryKeys.length →
    (k.AccountHistoryKeys.length - n) + k.StorageHistoryKeys.length + k.StorageKeys.length +
      k.AccountChangeSet.length < f →
    innerRound f (mkSt k L c AccountsHistoryBucket n) =
      ((k.AccountHistoryKeys.drop n).map (fun b => (b, AccountsHistoryBucket)) ++
        k.StorageHistoryKeys.map (fun b => (b, StorageHistoryBucket)) ++
        k.StorageKeys.map (fun b => (b, HashedStorageBucket)) ++
        k.AccountChangeSet.map (fun b => (b, PlainAccountChangeSetBucket)),
       mkSt k L (c + (k.AccountHistoryKeys.length - n) + k.StorageHistoryKeys.length +
         k.StorageKeys.length + k.AccountChangeSet.length + min 1 k.StorageChangeSet.length)
         PlainStorageChangeSetBucket (min 1 k.StorageChangeSet.length), true)
  | 0, c, n, hn, hf => by omega
  | f + 1, c, n, hn, hf => by
    by_cases he : n = k.AccountHistoryKeys.length
    · subst he
      rw [innerRound_eq_of_getNext
        (getNext_eq_of_upd (upd_trans1 k L c) (by simp [mkSt]; omega) (by simp [mkSt]; omega)) f]
      rw [inner2 k L h2 h3 h4 h5 (f + 1) c 0 (by omega) (by omega)]
      have hc : c + (k.StorageHistoryKeys.length - 0) + k.StorageKeys.length +
          k.AccountChangeSet.length =
          c + (k.AccountHistoryKeys.length - k.AccountHistoryKeys.length) +
            k.StorageHistoryKeys.length + k.StorageKeys.length +
            k.AccountChangeSet.length := by
        omega
      rw [hc]
      simp [List.drop_length, List.append_assoc]
    · have hlt : n < k.AccountHistoryKeys.length := by omega
      show innerRoundDel _ _ _ = _
      rw [innerRoundDel, getNext_b1 k L c n hlt (by omega)]
      simp only [innerRoundDel_false,
        inner1 k L h1 h2 h3 h4 h5 f (c + 1) (n + 1) (by omega) (by omega), Bool.false_eq_true,
        if_false]
      have hc : c + 1 + (k.AccountHistoryKeys.length - (n + 1)) =
          c + (k.AccountHistoryKeys.length - n) := by omega
      rw [hc]
      simp [List.getD_eq_getElem?_getD, List.getElem?_eq_getElem hlt]
      rw [eq_comm, List.drop_eq_getElem_cons (by simpa using hlt)]
      simp

/-- The first round of `batchDelete` from the initial state: it yields
every key of the four non-last groups in traversal order, crossing every
group boundary, and ends inside the last bucket. -/
theorem inner_start (k : keysToRemove) (L : Nat) (h1 : k.AccountHistoryKeys.length < L)
    (h2 : k.StorageHistoryKeys.length < L) (h3 : k.StorageKeys.length < L)
    (h4 : k.AccountChangeSet.length < L) (h5 : k.StorageChangeSet.length ≤ L)
    (f c : Nat)
    (hf : k.AccountHistoryKeys.length + k.StorageHistoryKeys.length + k.StorageKeys.length +
      k.AccountChangeSet.length < f + 1) :
    innerRound (f + 1) (mkSt k L c "" 0) =
      (k.AccountHistoryKeys.map (fun b => (b, AccountsHistoryBucket)) ++
        k.StorageHistoryKeys.map (fun b => (b, StorageHistoryBucket)) ++
        k.StorageKeys.map (fun b => (b, HashedStorageBucket)) ++
        k.AccountChangeSet.map (fun b => (b, PlainAccountChangeSetBucket)),
       mkSt k L (c + k.AccountHistoryKeys.length + k.StorageHistoryKeys.length +
         k.StorageKeys.length + k.AccountChangeSet.length + min 1 k.StorageChangeSet.length)
         PlainStorageChangeSetBucket (min 1 k.StorageChangeSet.length), true) := by
  rw [innerRound_eq_of_getNext
    (getNext_eq_of_upd (upd_trans0 k L c 0) (by simp [mkSt]; omega) (by simp [mkSt]; omega)) f]
  rw [inner1 k L h1 h2 h3 h4 h5 (f + 1) c 0 (by omega) (by omega)]
  have hc : c + (k.AccountHistoryKeys.length - 0) + k.StorageHistoryKeys.length +
      k.StorageKeys.length + k.AccountChangeSet.length =
      c + k.AccountHistoryKeys.length + k.StorageHistoryKeys.length + k.StorageKeys.length +
        k.AccountChangeSet.length := by
    omega
  rw [hc]
  simp

/-! ## Helper lemmas: the outer rounds of batchDelete -/

theorem hasMore_start (k : keysToRemove) (L c n : Nat) :
    (mkSt k L c "" n).HasMore = true := by
  simp +decide [limitIterator.HasMore, mkSt, stdBatches, PlainStorageChangeSetBucket]

theorem hasMore_5_true (k : keysToRemove) (L c n : Nat)
    (hn : k.StorageChangeSet.length ≠ n) :
    (mkSt k L c PlainStorageChangeSetBucket n).HasMore = true := by
  simp +decide [limitIterator.HasMore, mkSt, stdBatches, PlainStorageChangeSetBucket, hn]

theorem hasMore_5_false (k : keysToRemove) (L c : Nat) :
    (mkSt k L c PlainStorageChangeSetBucket k.StorageChangeSet.length).HasMore = false := by
  simp +decide [limitIterator.HasMore, mkSt, stdBatches, PlainStorageChangeSetBucket]

theorem resetLimit_mkSt (k : keysToRemove) (L c : Nat) (cb : String) (n : Nat) :
    (mkSt k L c cb n).ResetLimit = mkSt k L 0 cb n := rfl

/-- Once the cursor sits inside the last bucket, each further round yields
nothing, silently advances the offset by one, and commits an empty batch,
until `HasMore` turns false. -/
theorem bdLoop_drain5 (k : keysToRemove) (L : Nat) (h5 : k.StorageChangeSet.length ≤ L) :
    ∀ (fO c n fI : Nat), n ≤ k.StorageChangeSet.length →
    k.StorageChangeSet.length - n < fO → 1 ≤ fI →
    bdLoop (fun _ _ => false) (fun _ => none) fI fO
        (mkSt k L c PlainStorageChangeSetBucket n) =
      some (Except.ok (List.replicate (k.StorageChangeSet.length - n) []))
  | 0, c, n, fI, hn, hf, hfI => by omega
  | fO + 1, c, n, fI, hn, hf, hfI => by
    by_cases he : n = k.StorageChangeSet.length
    · subst he
      rw [bdLoop, hasMore_5_false k L c]
      simp
    · have hlt : n < k.StorageChangeSet.length := by omega
      obtain ⟨f, rfl⟩ : ∃ f, fI = f + 1 := ⟨fI - 1, by omega⟩
      rw [bdLoop, hasMore_5_true k L c n (by omega)]
      simp only [if_true, resetLimit_mkSt, innerRoundDel_false,
        inner5_lt k L 0 n hlt h5 f,
        bdLoop_drain5 k L h5 fO 1 (n + 1) (f + 1) (by omega) (by omega) (by omega)]
      rw [show k.StorageChangeSet.length - n = (k.StorageChangeSet.length - (n + 1)) + 1
        by omega]
      simp [List.replicate_succ]

/-- The complete run of `batchDelete`'s driver when every non-last group
is smaller than the limit and the last group no larger than it: one round
holding every key of the four non-last groups in traversal order, then
one empty committed round per remaining last-group offset; no key of the
last group is ever yielded. -/
theorem bdLoop_run (k : keysToRemove) (L fI fO : Nat)
    (h1 : k.AccountHistoryKeys.length < L) (h2 : k.StorageHistoryKeys.length < L)
    (h3 : k.StorageKeys.length < L) (h4 : k.AccountChangeSet.length < L)
    (h5 : k.StorageChangeSet.length ≤ L)
    (hfI : k.AccountHistoryKeys.length + k.StorageHistoryKeys.length +
      k.StorageKeys.length + k.AccountChangeSet.length < fI)
    (hfO : k.StorageChangeSet.length + 1 < fO) :
    bdLoop (fun _ _ => false) (fun _ => none) fI fO (LimitIterator k L) =
      some (Except.ok
        ((k.AccountHistoryKeys.map (fun b => (b, AccountsHistoryBucket)) ++
          k.StorageHistoryKeys.map (fun b => (b, StorageHistoryBucket)) ++
          k.StorageKeys.map (fun b => (b, HashedStorageBucket)) ++
          k.AccountChangeSet.map (fun b => (b, PlainAccountChangeSetBucket))) ::
          List.replicate (k.StorageChangeSet.length - 1) [])) := by
  obtain ⟨f, rfl⟩ : ∃ f, fO = f + 1 := ⟨fO - 1, by omega⟩
  obtain ⟨fi, rfl⟩ : ∃ fi, fI = fi + 1 := ⟨fI - 1, by omega⟩
  rw [LimitIterator_eq_mkSt, bdLoop, hasMore_start k L 0 0]
  simp only [if_true, resetLimit_mkSt, innerRoundDel_false,
    inner_start k L h1 h2 h3 h4 h5 fi 0 (by omega),
    bdLoop_drain5 k L h5 f
      (0 + k.AccountHistoryKeys.length + k.StorageHistoryKeys.length + k.StorageKeys.length +
        k.AccountChangeSet.length + min 1 k.StorageChangeSet.length)
      (min 1 k.StorageChangeSet.length) (fi + 1) (by omega) (by omega) (by omega)]
  rw [show k.StorageChangeSet.length - min 1 k.StorageChangeSet.length =
    k.StorageChangeSet.length - 1 by omega]

/-! ## Claim C1: exactly-once enumeration across groups -/

/-- Claim C1 counterexample. A `keysToRemove` holding exactly one key, in
the last group (`StorageChangeSet`), with `limit = 1`: the driver
terminates after one committed round having yielded *nothing* — the key
of the last group is never yielded (both loops in `GetNext` and
`updateBucket` break before the last batch), contradicting "yields every
key of every group exactly once, including the keys of the last group". -/
theorem limitIterator_misses_last_group :
    bdLoop (fun _ _ => false) (fun _ => none) 3 3
        (LimitIterator { newKeysToRemove with StorageChangeSet := [[7]] } 1) =
      some (Except.ok [[]]) ∧
    ({ newKeysToRemove with StorageChangeSet := [[7]] } : keysToRemove).StorageChangeSet.length
      = 1 :=
  ⟨rfl, rfl⟩

/-- Claim C1, amended. For every `keysToRemove` whose four non-last groups
each hold fewer than `limit` keys and whose last group holds at most
`limit` keys (otherwise the driver never terminates, see the
non-termination theorem), the rounds of `ResetLimit`+`GetNext` yield
every key of the four *non-last* groups exactly once, in the fixed
traversal order, across group boundaries — but **no** key of the last
group (`StorageChangeSet`) is ever yielded. -/
theorem limitIterator_exactly_once_amended (k : keysToRemove) (L fI fO : Nat)
    (h1 : k.AccountHistoryKeys.length < L) (h2 : k.StorageHistoryKeys.length < L)
    (h3 : k.StorageKeys.length < L) (h4 : k.AccountChangeSet.length < L)
    (h5 : k.StorageChangeSet.length ≤ L)
    (hfI : k.AccountHistoryKeys.length + k.StorageHistoryKeys.length +
      k.StorageKeys.length + k.AccountChangeSet.length < fI)
    (hfO : k.StorageChangeSet.length + 1 < fO) :
    bdLoop (fun _ _ => false) (fun _ => none) fI fO (LimitIterator k L) =
      some (Except.ok
        ((k.AccountHistoryKeys.map (fun b => (b, AccountsHistoryBucket)) ++
          k.StorageHistoryKeys.map (fun b => (b, StorageHistoryBucket)) ++
          k.StorageKeys.map (fun b => (b, HashedStorageBucket)) ++
          k.AccountChangeSet.map (fun b => (b, PlainAccountChangeSetBucket))) ::
          List.replicate (k.StorageChangeSet.length - 1) [])) ∧
    ((k.AccountHistoryKeys.map (fun b => (b, AccountsHistoryBucket)) ++
      k.StorageHistoryKeys.map (fun b => (b, StorageHistoryBucket)) ++
      k.StorageKeys.map (fun b => (b, HashedStorageBucket)) ++
      k.AccountChangeSet.map (fun b => (b, PlainAccountChangeSetBucket))) ::
      List.replicate (k.StorageChangeSet.length - 1)
        ([] : List (Bytes × String))).flatten =
      k.AccountHistoryKeys.map (fun b => (b, AccountsHistoryBucket)) ++
        k.StorageHistoryKeys.map (fun b => (b, StorageHistoryBucket)) ++
        k.StorageKeys.map (fun b => (b, HashedStorageBucket)) ++
        k.AccountChangeSet.map (fun b => (b, PlainAccountChangeSetBucket)) := by
  refine ⟨bdLoop_run k L fI fO h1 h2 h3 h4 h5 hfI hfO, ?_⟩
  simp [List.flatten_cons, List.flatten_replicate_nil]

/-- Witness for C1 (amended) at a concrete five-key input spanning all
groups. -/
theorem limitIterator_exactly_once_amended_witness :
    (({ newKeysToRemove with
        AccountHistoryKeys := [[1]], StorageHistoryKeys := [[2]],
        AccountChangeSet := [[3]], StorageChangeSet := [[4], [5]] } :
        keysToRemove).AccountHistoryKeys.length < 3 ∧
      ({ newKeysToRemove with
        AccountHistoryKeys := [[1]], StorageHistoryKeys := [[2]],
        AccountChangeSet := [[3]], StorageChangeSet := [[4], [5]] } :
        keysToRemove).StorageChangeSet.length ≤ 3) ∧
    bdLoop (fun _ _ => false) (fun _ => none) 9 5
        (LimitIterator { newKeysToRemove with
          AccountHistoryKeys := [[1]], StorageHistoryKeys := [[2]],
          AccountChangeSet := [[3]], StorageChangeSet := [[4], [5]] } 3) =
      some (Except.ok
        (([([1], AccountsHistoryBucket), ([2], StorageHistoryBucket),
           ([3], PlainAccountChangeSetBucket)] : List (Bytes × String)) :: [[]])) := by
  refine ⟨⟨by decide, by decide⟩, ?_⟩
  have h := (limitIterator_exactly_once_amended
    { newKeysToRemove with
      AccountHistoryKeys := [[1]], StorageHistoryKeys := [[2]],
      AccountChangeSet := [[3]], StorageChangeSet := [[4], [5]] } 3 9 5
    (by decide) (by decide) (by decide) (by decide) (by decide) (by decide) (by decide)).1
  simpa using h

/-! ## Claim C3: the 70000-per-round cap -/

/-- Claim C3 counterexample. Two non-last groups of 40000 keys each, both
below `DeleteLimit = 70000`: the first round crosses the group boundary
(`currentNum` is reset to 0 there, and the limit check reads
`currentNum`, not the round counter), so the single committed batch holds
80000 > 70000 deletes. -/
theorem batchDelete_round_exceeds_DeleteLimit :
    batchDelete (fun _ _ => false) (fun _ => none) 80001 2
        { newKeysToRemove with
          AccountHistoryKeys := List.replicate 40000 ([] : Bytes)
          StorageHistoryKeys := List.replicate 40000 ([] : Bytes) } =
      some (Except.ok
        (((List.replicate 40000 ([] : Bytes)).map (fun b => (b, AccountsHistoryBucket)) ++
          (List.replicate 40000 ([] : Bytes)).map (fun b => (b, StorageHistoryBucket)) ++
          ([] : Keys).map (fun b => (b, HashedStorageBucket)) ++
          ([] : Keys).map (fun b => (b, PlainAccountChangeSetBucket))) ::
          List.replicate 0 [])) ∧
    DeleteLimit <
      ((List.replicate 40000 ([] : Bytes)).map (fun b => (b, AccountsHistoryBucket)) ++
        (List.replicate 40000 ([] : Bytes)).map (fun b => (b, StorageHistoryBucket)) ++
        ([] : Keys).map (fun b => (b, HashedStorageBucket)) ++
        ([] : Keys).map (fun b => (b, PlainAccountChangeSetBucket))).length := by
  constructor
  · exact bdLoop_run
      { newKeysToRemove with
        AccountHistoryKeys := List.replicate 40000 ([] : Bytes)
        StorageHistoryKeys := List.replicate 40000 ([] : Bytes) }
      DeleteLimit 80001 2
      (by simp only [newKeysToRemove, List.length_replicate, DeleteLimit]; norm_num)
      (by simp only [newKeysToRemove, List.length_replicate, DeleteLimit]; norm_num)
      (by simp only [newKeysToRemove, List.length_nil, DeleteLimit]; norm_num)
      (by simp only [newKeysToRemove, List.length_nil, DeleteLimit]; norm_num)
      (by simp only [newKeysToRemove, List.length_nil, DeleteLimit]; norm_num)
      (by simp only [newKeysToRemove, List.length_replicate, List.length_nil]; norm_num)
      (by simp only [newKeysToRemove, List.length_nil]; norm_num)
  · simp only [List.length_append, List.length_map, List.length_replicate, List.length_nil,
      DeleteLimit]
    norm_num

/-- Claim C3, amended. A round of `batchDelete` is *not* capped at 70000
keys: the limit check reads the intra-group offset, which `updateBucket`
resets to zero at every group boundary.  What holds instead (for inputs
on which the driver terminates): the first round takes *all* keys of the
four non-last groups — so a committed batch is bounded only by their
total size — and every later round is empty. -/
theorem batchDelete_round_bound_amended (k : keysToRemove) (fI fO : Nat)
    (h1 : k.AccountHistoryKeys.length < DeleteLimit)
    (h2 : k.StorageHistoryKeys.length < DeleteLimit)
    (h3 : k.StorageKeys.length < DeleteLimit)
    (h4 : k.AccountChangeSet.length < DeleteLimit)
    (h5 : k.StorageChangeSet.length ≤ DeleteLimit)
    (hfI : k.AccountHistoryKeys.length + k.StorageHistoryKeys.length +
      k.StorageKeys.length + k.AccountChangeSet.length < fI)
    (hfO : k.StorageChangeSet.length + 1 < fO) :
    batchDelete (fun _ _ => false) (fun _ => none) fI fO k =
      some (Except.ok
        ((k.AccountHistoryKeys.map (fun b => (b, AccountsHistoryBucket)) ++
          k.StorageHistoryKeys.map (fun b => (b, StorageHistoryBucket)) ++
          k.StorageKeys.map (fun b => (b, HashedStorageBucket)) ++
          k.AccountChangeSet.map (fun b => (b, PlainAccountChangeSetBucket))) ::
          List.replicate (k.StorageChangeSet.length - 1) [])) ∧
    ∀ r ∈ ((k.AccountHistoryKeys.map (fun b => (b, AccountsHistoryBucket)) ++
        k.StorageHistoryKeys.map (fun b => (b, StorageHistoryBucket)) ++
        k.StorageKeys.map (fun b => (b, HashedStorageBucket)) ++
        k.AccountChangeSet.map (fun b => (b, PlainAccountChangeSetBucket))) ::
        List.replicate (k.StorageChangeSet.length - 1)
          ([] : List (Bytes × String))),
      r.length ≤ k.AccountHistoryKeys.length + k.StorageHistoryKeys.length +
        k.StorageKeys.length + k.AccountChangeSet.length := by
  refine ⟨bdLoop_run k DeleteLimit fI fO h1 h2 h3 h4 h5 hfI hfO, ?_⟩
  intro r hr
  rcases List.mem_cons.1 hr with hr | hr
  · subst hr
    simp only [List.length_append, List.length_map]
    omega
  · have := List.eq_of_mem_replicate hr
    subst this
    simp

/-- Witness for C3 (amended) at a concrete five-key input. -/
theorem batchDelete_round_bound_amended_witness :
    (({ newKeysToRemove with
        AccountHistoryKeys := [[1]], StorageHistoryKeys := [[2]],
        AccountChangeSet := [[3]], StorageChangeSet := [[4], [5]] } :
        keysToRemove).AccountHistoryKeys.length < DeleteLimit ∧
      ({ newKeysToRemove with
        AccountHistoryKeys := [[1]], StorageHistoryKeys := [[2]],
        AccountChangeSet := [[3]], StorageChangeSet := [[4], [5]] } :
        keysToRemove).StorageChangeSet.length ≤ DeleteLimit) ∧
    batchDelete (fun _ _ => false) (fun _ => none) 9 5
        { newKeysToRemove with
          AccountHistoryKeys := [[1]], StorageHistoryKeys := [[2]],
          AccountChangeSet := [[3]], StorageChangeSet := [[4], [5]] } =
      some (Except.ok
        (([([1], AccountsHistoryBucket), ([2], StorageHistoryBucket),
           ([3], PlainAccountChangeSetBucket)] : List (Bytes × String)) :: [[]])) := by
  refine ⟨⟨by decide, by decide⟩, ?_⟩
  have h := (batchDelete_round_bound_amended
    { newKeysToRemove with
      AccountHistoryKeys := [[1]], StorageHistoryKeys := [[2]],
      AccountChangeSet := [[3]], StorageChangeSet := [[4], [5]] } 9 5
    (by decide) (by decide) (by decide) (by decide) (by decide) (by decide) (by decide)).1
  simpa using h

/-! ## Claim C2: non-termination of batchDelete -/

theorem updStuck_1 (k : keysToRemove) (L : Nat) (hbig : L ≤ k.AccountHistoryKeys.length) :
    ∀ cb cn, cn < L → cb ∈ (["", AccountsHistoryBucket] : List String) →
    (ubLoop (if cb = "" then AccountsHistoryBucket else cb) cn (stdBatches k)).1 ∈
      (["", AccountsHistoryBucket] : List String) ∧
    (ubLoop (if cb = "" then AccountsHistoryBucket else cb) cn (stdBatches k)).2 ≤ cn := by
  intro cb cn hcn hm
  have hne : k.AccountHistoryKeys.length ≠ cn := by omega
  fin_cases hm <;>
    simp +decide [ubLoop, stdBatches, AccountsHistoryBucket, StorageHistoryBucket,
      HashedStorageBucket, PlainAccountChangeSetBucket, PlainStorageChangeSetBucket, hne]

theorem updStuck_2 (k : keysToRemove) (L : Nat) (hbig : L ≤ k.StorageHistoryKeys.length) :
    ∀ cb cn, cn < L → cb ∈ (["", AccountsHistoryBucket, StorageHistoryBucket] : List String) →
    (ubLoop (if cb = "" then AccountsHistoryBucket else cb) cn (stdBatches k)).1 ∈
      (["", AccountsHistoryBucket, StorageHistoryBucket] : List String) ∧
    (ubLoop (if cb = "" then AccountsHistoryBucket else cb) cn (stdBatches k)).2 ≤ cn := by
  intro cb cn hcn hm
  have hne2 : k.StorageHistoryKeys.length ≠ 0 := by omega
  have hne2' : k.StorageHistoryKeys.length ≠ cn := by omega
  fin_cases hm <;>
    simp +decide [ubLoop, stdBatches, AccountsHistoryBucket, StorageHistoryBucket,
      HashedStorageBucket, PlainAccountChangeSetBucket, PlainStorageChangeSetBucket,
      hne2, hne2'] <;>
    split_ifs <;> simp +decide <;> omega

theorem updStuck_3 (k : keysToRemove) (L : Nat) (hbig : L ≤ k.StorageKeys.length) :
    ∀ cb cn, cn < L →
    cb ∈ (["", AccountsHistoryBucket, StorageHistoryBucket, HashedStorageBucket] :
      List String) →
    (ubLoop (if cb = "" then AccountsHistoryBucket else cb) cn (stdBatches k)).1 ∈
      (["", AccountsHistoryBucket, StorageHistoryBucket, HashedStorageBucket] :
        List String) ∧
    (ubLoop (if cb = "" then AccountsHistoryBucket else cb) cn (stdBatches k)).2 ≤ cn := by
  intro cb cn hcn hm
  have hne3 : k.StorageKeys.length ≠ 0 := by omega
  have hne3' : k.StorageKeys.length ≠ cn := by omega
  fin_cases hm <;>
    simp +decide [ubLoop, stdBatches, AccountsHistoryBucket, StorageHistoryBucket,
      HashedStorageBucket, PlainAccountChangeSetBucket, PlainStorageChangeSetBucket,
      hne3, hne3'] <;>
    split_ifs <;> simp +decide <;> omega

theorem updStuck_4 (k : keysToRemove) (L : Nat) (hbig : L ≤ k.AccountChangeSet.length) :
    ∀ cb cn, cn < L →
    cb ∈ (["", AccountsHistoryBucket, StorageHistoryBucket, HashedStorageBucket,
      PlainAccountChangeSetBucket] : List String) →
    (ubLoop (if cb = "" then AccountsHistoryBucket else cb) cn (stdBatches k)).1 ∈
      (["", AccountsHistoryBucket, StorageHistoryBucket, HashedStorageBucket,
        PlainAccountChangeSetBucket] : List String) ∧
    (ubLoop (if cb = "" then AccountsHistoryBucket else cb) cn (stdBatches k)).2 ≤ cn := by
  intro cb cn hcn hm
  have hne4 : k.AccountChangeSet.length ≠ 0 := by omega
  have hne4' : k.AccountChangeSet.length ≠ cn := by omega
  fin_cases hm <;>
    simp +decide [ubLoop, stdBatches, AccountsHistoryBucket, StorageHistoryBucket,
      HashedStorageBucket, PlainAccountChangeSetBucket, PlainStorageChangeSetBucket,
      hne4, hne4'] <;>
    split_ifs <;> simp +decide <;> omega

theorem hasMore_stuck (k : keysToRemove) (L : Nat) (allowed : List String)
    (hn5 : PlainStorageChangeSetBucket ∉ allowed) (i : limitIterator)
    (hinv : stuckInv k L allowed i) : i.HasMore = true := by
  obtain ⟨hb, hl, hn, hm⟩ := hinv
  have hne : i.currentBucket ≠ PlainStorageChangeSetBucket := by
    intro h
    exact hn5 (h ▸ hm)
  rw [limitIterator.HasMore, hb]
  simp [stdBatches, hne]

theorem getNext_stuck (k : keysToRemove) (L : Nat) (allowed : List String)
    (hub : ∀ cb cn, cn < L → cb ∈ allowed →
      (ubLoop (if cb = "" then AccountsHistoryBucket else cb) cn (stdBatches k)).1 ∈ allowed ∧
      (ubLoop (if cb = "" then AccountsHistoryBucket else cb) cn (stdBatches k)).2 ≤ cn)
    (i : limitIterator) (hinv : stuckInv k L allowed i) :
    stuckInv k L allowed (i.GetNext).2 := by
  obtain ⟨hb, hl, hn, hm⟩ := hinv
  rw [limitIterator.GetNext]
  by_cases hc : i.limit ≤ i.currentNum
  · rw [if_pos hc]
    exact ⟨hb, hl, hn, hm⟩
  · rw [if_neg hc]
    have hcL : i.currentNum < L := by omega
    have hupd := hub i.currentBucket i.currentNum hcL hm
    have hu : i.updateBucket =
        { i with
          currentBucket := (ubLoop (if i.currentBucket = "" then AccountsHistoryBucket
            else i.currentBucket) i.currentNum (stdBatches k)).1
          currentNum := (ubLoop (if i.currentBucket = "" then AccountsHistoryBucket
            else i.currentBucket) i.currentNum (stdBatches k)).2 } := by
      rw [limitIterator.updateBucket, hb]
      simp [stdBatches]
    rw [hu]
    by_cases hhm : ({ i with
        currentBucket := (ubLoop (if i.currentBucket = "" then AccountsHistoryBucket
          else i.currentBucket) i.currentNum (stdBatches k)).1
        currentNum := (ubLoop (if i.currentBucket = "" then AccountsHistoryBucket
          else i.currentBucket) i.currentNum (stdBatches k)).2 } : limitIterator).HasMore = true
    · rw [if_pos hhm]
      exact ⟨hb, hl, by simp; omega, by simpa using hupd.1⟩
    · rw [if_neg hhm]
      exact ⟨hb, hl, by simp; omega, by simpa using hupd.1⟩

theorem innerRound_stuck (k : keysToRemove) (L : Nat) (allowed : List String)
    (hub : ∀ cb cn, cn < L → cb ∈ allowed →
      (ubLoop (if cb = "" then AccountsHistoryBucket else cb) cn (stdBatches k)).1 ∈ allowed ∧
      (ubLoop (if cb = "" then AccountsHistoryBucket else cb) cn (stdBatches k)).2 ≤ cn)
    (delFail : String → Bytes → Bool) :
    ∀ (f : Nat) (i : limitIterator), stuckInv k L allowed i →
      stuckInv k L allowed ((innerRoundDel delFail f i).2.1)
  | 0, i, hinv => hinv
  | f + 1, i, hinv => by
    rw [innerRoundDel]
    match hg : i.GetNext with
    | (none, i') =>
      have := getNext_stuck k L allowed hub i hinv
      rw [hg] at this
      exact this
    | (some kb, i') =>
      have hi' : stuckInv k L allowed i' := by
        have := getNext_stuck k L allowed hub i hinv
        rwa [hg] at this
      have := innerRound_stuck k L allowed hub delFail f i' hi'
      by_cases hd : delFail kb.2 kb.1 <;> simp [hd] <;> exact this

theorem bdLoop_stuck (k : keysToRemove) (L : Nat) (allowed : List String)
    (hub : ∀ cb cn, cn < L → cb ∈ allowed →
      (ubLoop (if cb = "" then AccountsHistoryBucket else cb) cn (stdBatches k)).1 ∈ allowed ∧
      (ubLoop (if cb = "" then AccountsHistoryBucket else cb) cn (stdBatches k)).2 ≤ cn)
    (hn5 : PlainStorageChangeSetBucket ∉ allowed) (delFail : String → Bytes → Bool) :
    ∀ (fO fI : Nat) (i : limitIterator), stuckInv k L allowed i →
      bdLoop delFail (fun _ => none) fI fO i = none
  | 0, fI, i, hinv => rfl
  | fO + 1, fI, i, hinv => by
    rw [bdLoop, if_pos (hasMore_stuck k L allowed hn5 i hinv)]
    have hinv1 : stuckInv k L allowed i.ResetLimit := by
      obtain ⟨hb, hl, hn, hm⟩ := hinv
      exact ⟨hb, hl, hn, hm⟩
    have hinv2 : stuckInv k L allowed ((innerRoundDel delFail fI i.ResetLimit).2.1) :=
      innerRound_stuck k L allowed hub delFail fI i.ResetLimit hinv1
    by_cases h2 : (innerRoundDel delFail fI i.ResetLimit).2.2 = true
    · rw [if_pos h2, bdLoop_stuck k L allowed hub hn5 delFail fO fI _ hinv2]
    · rw [if_neg h2]

/-- Claim C2. When any key group other than the last holds at least
`DeleteLimit` (70000) keys, `batchDelete` never terminates: once the
intra-group offset `currentNum` reaches the limit, `GetNext` returns
`ok = false` before calling `updateBucket`, `ResetLimit` resets only
`counter` (which no check reads) and never `currentNum`, so every further
round yields nothing while `HasMore` stays true — the fuel-indexed driver
returns `none` for *every* inner and outer fuel, whatever the per-key
delete faults. -/
theorem batchDelete_never_terminates (k : keysToRemove)
    (delFail : String → Bytes → Bool) (fI fO : Nat)
    (hbig : DeleteLimit ≤ k.AccountHistoryKeys.length ∨
      DeleteLimit ≤ k.StorageHistoryKeys.length ∨
      DeleteLimit ≤ k.StorageKeys.length ∨
      DeleteLimit ≤ k.AccountChangeSet.length) :
    batchDelete delFail (fun _ => none) fI fO k = none := by
  have hinv0 : ∀ allowed : List String, "" ∈ allowed →
      stuckInv k DeleteLimit allowed (LimitIterator k DeleteLimit) := by
    intro allowed h
    exact ⟨rfl, rfl, by simp [LimitIterator], by simpa [LimitIterator] using h⟩
  rcases hbig with h | h | h | h
  · exact bdLoop_stuck k DeleteLimit ["", AccountsHistoryBucket] (updStuck_1 k DeleteLimit h)
      (by decide) delFail fO fI _ (hinv0 _ (by decide))
  · exact bdLoop_stuck k DeleteLimit ["", AccountsHistoryBucket, StorageHistoryBucket]
      (updStuck_2 k DeleteLimit h) (by decide) delFail fO fI _ (hinv0 _ (by decide))
  · exact bdLoop_stuck k DeleteLimit
      ["", AccountsHistoryBucket, StorageHistoryBucket, HashedStorageBucket]
      (updStuck_3 k DeleteLimit h) (by decide) delFail fO fI _ (hinv0 _ (by decide))
  · exact bdLoop_stuck k DeleteLimit
      ["", AccountsHistoryBucket, StorageHistoryBucket, HashedStorageBucket,
        PlainAccountChangeSetBucket]
      (updStuck_4 k DeleteLimit h) (by decide) delFail fO fI _ (hinv0 _ (by decide))

/-- Witness for C2: a group of exactly 70000 keys hangs the driver — the
run result is `none` at (arbitrary) concrete fuels. -/
theorem batchDelete_never_terminates_witness :
    DeleteLimit ≤ (List.replicate 70000 ([] : Bytes)).length ∧
    batchDelete (fun _ _ => false) (fun _ => none) 3 3
        { newKeysToRemove with AccountHistoryKeys := List.replicate 70000 ([] : Bytes) } =
      none :=
  ⟨by simp only [List.length_replicate, DeleteLimit]; omega,
    batchDelete_never_terminates
      { newKeysToRemove with AccountHistoryKeys := List.replicate 70000 ([] : Bytes) }
      (fun _ _ => false) 3 3
      (Or.inl (by simp only [newKeysToRemove, List.length_replicate, DeleteLimit]; omega))⟩
